import Mathlib

/-!
Verification of the Stone-to-Rust code generator (`src/generator/rust.stoneg.py`).

The generator walks an already-parsed schema model (namespaces holding structs,
unions, aliases and routes) and emits Rust type definitions, serde
encoders/decoders, and route stubs.  This file gives a shallow embedding of

  * the naming rules (`_struct_name`, `_enum_name`, `_field_name`, ...),
  * the type mapper (`_rust_type`),
  * the default-value synthesizer (`_default_value`),
  * the behavior of the emitted struct decoder/encoder
    (`_impl_serde_for_struct`) and union serializer (`_impl_serde_for_union`),
  * the route emitter (`_emit_route`) and namespace driver (`_emit_namespace`,
    `_generate_mod_file`),

and proves the stated behavioral properties about them.

The case-conversion helpers `fmt_pascal` / `fmt_underscores` are imported by
the generator from the upstream `stone.target.helpers` module, which is not
part of this repository; they are modelled here from the specification's
wording (PascalCase resp. snake_case conversion, splitting words at
delimiters and at lowercase-to-uppercase boundaries).
-/

set_option autoImplicit false

/-! ## ASCII case conversion (modelled helpers) -/

/-- Modelled from the spec: ASCII lower-casing of a single character, as used
by the upstream case-conversion helpers (not part of this repository). -/
def toLowerC (c : Char) : Char :=
  if 65 ≤ c.toNat ∧ c.toNat ≤ 90 then Char.ofNat (c.toNat + 32) else c

/-- Modelled from the spec: ASCII upper-casing of a single character. -/
def toUpperC (c : Char) : Char :=
  if 97 ≤ c.toNat ∧ c.toNat ≤ 122 then Char.ofNat (c.toNat - 32) else c

/-- Modelled from the spec: ASCII uppercase test (word-boundary detection). -/
def isUpperC (c : Char) : Bool :=
  decide (65 ≤ c.toNat ∧ c.toNat ≤ 90)

/-- Modelled from the spec: the word delimiters recognized by the upstream
case converters: underscore, dash, slash and space. -/
def isDelim (c : Char) : Bool :=
  c == '_' || c == '-' || c == '/' || c == ' '

/-- Flush a nonempty accumulated word. -/
def flushWord (cur : List Char) : List (List Char) :=
  if cur.isEmpty then [] else [cur]

/-- Modelled from the spec: split a character list into words at delimiters
(dropped) and before each uppercase letter (kept). -/
def wordsAux : List Char → List Char → List (List Char)
  | cur, [] => flushWord cur
  | cur, c :: rest =>
    if isDelim c then flushWord cur ++ wordsAux [] rest
    else if isUpperC c then flushWord cur ++ wordsAux [c] rest
    else wordsAux (cur ++ [c]) rest

/-- Modelled from the spec: word splitting starting from an empty accumulator. -/
def splitWordsL (l : List Char) : List (List Char) :=
  wordsAux [] l

/-- Lower-case every character of a word. -/
def lowerWord (w : List Char) : List Char :=
  w.map toLowerC

/-- Capitalize a word: first character upper-cased, rest lower-cased. -/
def capWord : List Char → List Char
  | [] => []
  | c :: cs => toUpperC c :: cs.map toLowerC

/-- Join words with a separator character. -/
def joinWith (sep : Char) : List (List Char) → List Char
  | [] => []
  | [w] => w
  | w :: ws => w ++ sep :: joinWith sep ws

/-- Concatenate words with no separator. -/
def concatWords : List (List Char) → List Char
  | [] => []
  | w :: ws => w ++ concatWords ws

/-- Modelled from the spec: `fmt_underscores` from `stone.target.helpers`
(not in this repository): snake_case conversion — split into words, lower-case
each, join with underscores. -/
def fmt_underscores (s : String) : String :=
  ⟨joinWith '_' ((splitWordsL s.data).map lowerWord)⟩

/-- Modelled from the spec: `fmt_pascal` from `stone.target.helpers` (not in
this repository): PascalCase conversion — split into words, capitalize each,
concatenate. -/
def fmt_pascal (s : String) : String :=
  ⟨concatWords ((splitWordsL s.data).map capWord)⟩

/-- A canonical snake_case word: nonempty, with no delimiter and no
uppercase character. -/
def snakeWord (w : List Char) : Prop :=
  w ≠ [] ∧ ∀ c ∈ w, isDelim c = false ∧ isUpperC c = false

/-- A capitalization-fixed word: nonempty, its head unchanged by
upper-casing, and its tail free of uppercase characters. -/
def capFixedWord : List Char → Prop
  | [] => False
  | c :: cs => toUpperC c = c ∧ ∀ x ∈ cs, isUpperC x = false

/-! ## Reserved words and naming rules (`RUST_RESERVED_WORDS`, lines 10-22;
naming functions, lines 488-528) -/

/-- The reserved-word list from the generator source: Rust keywords plus
prelude type names. -/
def RUST_RESERVED_WORDS : List String :=
  ["abstract", "alignof", "as", "become", "box", "break", "const", "continue", "crate", "do",
   "else", "enum", "extern", "false", "final", "fn", "for", "if", "impl", "in", "let", "loop",
   "macro", "match", "mod", "move", "mut", "offsetof", "override", "priv", "proc", "pub", "pure",
   "ref", "return", "Self", "self", "sizeof", "static", "struct", "super", "trait", "true", "type",
   "typeof", "unsafe", "unsized", "use", "virtual", "where", "while", "yield",
   "Copy", "Send", "Sized", "Sync", "Drop", "Fn", "FnMut", "FnOnce", "drop", "Box", "ToOwned",
   "Clone", "PartialEq", "PartialOrd", "Eq", "Ord", "AsRef", "AsMut", "Into", "From", "Default",
   "Iterator", "Extend", "IntoIterator", "DoubleEndedIterator", "ExactSizeIterator", "Option",
   "Some", "None", "Result", "Ok", "Err", "SliceConcatExt", "String", "ToString", "Vec"]

/-- `_namespace_name` (line 488): snake_case plus `_namespace` suffix on
reserved-word collision. -/
def namespace_name (s : String) : String :=
  let name := fmt_underscores s
  if name ∈ RUST_RESERVED_WORDS then name ++ "_namespace" else name

/-- `_struct_name` (line 494): PascalCase plus `Struct` suffix on collision. -/
def struct_name (s : String) : String :=
  let name := fmt_pascal s
  if name ∈ RUST_RESERVED_WORDS then name ++ "Struct" else name

/-- `_enum_name` (line 500): PascalCase plus `Union` suffix on collision. -/
def enum_name (s : String) : String :=
  let name := fmt_pascal s
  if name ∈ RUST_RESERVED_WORDS then name ++ "Union" else name

/-- `_field_name` (line 506): snake_case plus `_field` suffix on collision. -/
def field_name (s : String) : String :=
  let name := fmt_underscores s
  if name ∈ RUST_RESERVED_WORDS then name ++ "_field" else name

/-- `_enum_variant_name` (line 512): PascalCase plus `Variant` suffix on
collision. -/
def enum_variant_name (s : String) : String :=
  let name := fmt_pascal s
  if name ∈ RUST_RESERVED_WORDS then name ++ "Variant" else name

/-- `_route_name` (line 518): snake_case plus `_route` suffix on collision. -/
def route_name (s : String) : String :=
  let name := fmt_underscores s
  if name ∈ RUST_RESERVED_WORDS then name ++ "_route" else name

/-- `_alias_name` (line 524): PascalCase plus `Alias` suffix on collision. -/
def alias_name (s : String) : String :=
  let name := fmt_pascal s
  if name ∈ RUST_RESERVED_WORDS then name ++ "Alias" else name

/-- The naming categories served by the seven naming functions. -/
inductive NameCategory where
  | structC
  | unionC
  | variantC
  | aliasC
  | fieldC
  | routeC
  | namespaceC
deriving DecidableEq

/-- The case convention used by each category: PascalCase for
type/variant/alias names, snake_case for field/route/namespace names. -/
def caseConv : NameCategory → String → String
  | .structC, s | .unionC, s | .variantC, s | .aliasC, s => fmt_pascal s
  | .fieldC, s | .routeC, s | .namespaceC, s => fmt_underscores s

/-- The category-specific reserved-word suffix. -/
def suffixOf : NameCategory → String
  | .structC => "Struct"
  | .unionC => "Union"
  | .variantC => "Variant"
  | .aliasC => "Alias"
  | .fieldC => "_field"
  | .routeC => "_route"
  | .namespaceC => "_namespace"

/-- Dispatch to the naming function of each category. -/
def name_for : NameCategory → String → String
  | .structC, s => struct_name s
  | .unionC, s => enum_name s
  | .variantC, s => enum_variant_name s
  | .aliasC, s => alias_name s
  | .fieldC, s => field_name s
  | .routeC, s => route_name s
  | .namespaceC, s => namespace_name s

/-! ## The schema data model (read-only inputs from the upstream front end) -/

/-- Stone type descriptors, mirroring the `isinstance` dispatch of the
generator.  `structT` carries the owning namespace, the struct name, its
field names (`all_fields`), and whether it has enumerated subtypes
(polymorphic).  `union` carries `all_fields` and `fields` variant-name lists
(they differ only when the union extends another union).
`userDefinedOther` stands for a `data_type.UserDefined` subclass that is
neither `Struct` nor `Union`; `unknownDescriptor` stands for any descriptor
class the generator does not recognize (the Python type-case is open). -/
inductive DType where
  | void
  | bytes
  | int32
  | uint32
  | int64
  | uint64
  | float32
  | float64
  | boolean
  | stringT
  | timestamp
  | nullable (t : DType)
  | listT (t : DType)
  | mapT (k v : DType)
  | alias (ns name : String) (t : DType)
  | structT (ns name : String) (fieldNames : List String) (hasEnumSubtypes : Bool)
  | union (ns name : String) (allFields fields : List String)
  | userDefinedOther (ns name : String)
  | unknownDescriptor (desc : String)
deriving DecidableEq

/-- `_rust_type` (lines 443-486): map a type descriptor to the Rust type
text, together with the diagnostics printed along the way.  The first
component is the emitted type expression, the second the list of
diagnostic messages (the Python `print` calls). -/
def rust_type (currentNamespace : String) : DType → String × List String
  | .nullable t =>
      let r := rust_type currentNamespace t
      ("Option<" ++ r.1 ++ ">", r.2)
  | .void => ("()", [])
  | .bytes => ("Vec<u8>", [])
  | .int32 => ("i32", [])
  | .uint32 => ("u32", [])
  | .int64 => ("i64", [])
  | .uint64 => ("u64", [])
  | .float32 => ("f32", [])
  | .float64 => ("f64", [])
  | .boolean => ("bool", [])
  | .stringT => ("String", [])
  | .timestamp => ("String /*Timestamp*/", [])
  | .listT t =>
      let r := rust_type currentNamespace t
      ("Vec<" ++ r.1 ++ ">", r.2)
  | .mapT k v =>
      let rk := rust_type currentNamespace k
      let rv := rust_type currentNamespace v
      ("HashMap<" ++ rk.1 ++ ", " ++ rv.1 ++ ">", rk.2 ++ rv.2)
  | .alias ns name _ =>
      if ns == currentNamespace then (alias_name name, [])
      else ("super::" ++ namespace_name ns ++ "::" ++ alias_name name, [])
  | .structT ns name _ _ =>
      if ns == currentNamespace then (struct_name name, [])
      else ("super::" ++ namespace_name ns ++ "::" ++ struct_name name, [])
  | .union ns name _ _ =>
      if ns == currentNamespace then (enum_name name, [])
      else ("super::" ++ namespace_name ns ++ "::" ++ enum_name name, [])
  | .userDefinedOther _ name =>
      ("()", ["ERROR: user-defined type \"" ++ name ++ "\" is neither Struct nor Union???"])
  | .unknownDescriptor desc =>
      ("()", ["ERROR: unhandled type \"" ++ desc ++ "\""])

/-! ## Default values (`_default_value`, lines 391-424) -/

/-- The Python value stored in `field.default`: a string, a number
(rendered verbatim when emitted), a boolean, or a `TagRef` into a union.
The `tagRef` constructor carries the referenced union's namespace, name,
`all_fields` variant names, `fields` variant names, and the tag name. -/
inductive PyDefault where
  | pstr (s : String)
  | pnum (s : String)
  | pbool (b : Bool)
  | tagRef (unionNs unionName : String) (allFields fields : List String) (tag : String)
deriving DecidableEq

/-- Python truthiness of a default value, as used by the boolean and string
branches of `_default_value`. -/
def truthy : PyDefault → Bool
  | .pbool b => b
  | .pstr s => !s.isEmpty
  | .pnum s => !(s == "0" || s == "0.0" || s.isEmpty)
  | .tagRef _ _ _ _ _ => true

/-- Rendering of a raw Python default value into emitted text (the implicit
`str()` conversion done by `format`). -/
def renderDefault : PyDefault → String
  | .pstr s => s
  | .pnum s => s
  | .pbool true => "True"
  | .pbool false => "False"
  | .tagRef _ _ _ _ tag => "TagRef(" ++ tag ++ ")"

/-- A schema field as seen by `_default_value`: its name, declared type, and
its declared default (the function is called only when `field.has_default`). -/
structure FieldD where
  name : String
  dtype : DType
  defaultVal : PyDefault
deriving DecidableEq

/-- `data_type.unwrap_aliases(...)[0]`: strip alias wrappers. -/
def unwrapAliases : DType → DType
  | .alias _ _ t => unwrapAliases t
  | t => t

/-- `data_type.is_numeric_type`. -/
def is_numeric_type : DType → Bool
  | .int32 | .uint32 | .int64 | .uint64 | .float32 | .float64 => true
  | _ => false

/-- The first loop of the tag-reference branch: scan all variants, remember
the last one whose name equals the tag. -/
def scanLast (variants : List String) (tag : String) : Option String :=
  variants.foldl (fun acc v => if v == tag then some v else acc) none

/-- `_default_value` (lines 391-424).  Returns the emitted default
expression (or `none` on the unreachable empty-union path, where the Python
code would raise `NameError`) paired with the diagnostics printed.  The
branch order mirrors the Python `elif` chain: nullable type first, then
numeric type (after alias unwrapping), then a `TagRef` default, then boolean
and string types, then the unhandled-default fallthrough. -/
def default_value (currentNamespace : String) (f : FieldD) : Option String × List String :=
  match f.dtype with
  | .nullable _ => (some "None", [])
  | dt =>
    if is_numeric_type (unwrapAliases dt) then (some (renderDefault f.defaultVal), [])
    else
      match f.defaultVal with
      | .tagRef uns un allF ownF tag =>
          let qual : String → String := fun v =>
            (rust_type currentNamespace (.union uns un allF ownF)).1 ++ "::" ++ enum_variant_name v
          (match scanLast allF tag with
           | some v => (some (qual v), [])
           | none =>
              let diags := ("ERROR: didn't find matching variant: " ++ tag)
                :: ownF.map (fun v => "variant.name = " ++ v)
              match ownF.getLast? with
              | some v => (some (qual v), diags)
              | none =>
                match allF.getLast? with
                | some v => (some (qual v), diags)
                | none => (none, diags))
      | d =>
          match dt with
          | .boolean => (some (if truthy d then "true" else "false"), [])
          | .stringT =>
              if truthy d then (some ("\"" ++ renderDefault d ++ "\".to_owned()"), [])
              else (some "String::new()", [])
          | _ =>
              (some (renderDefault d),
               ["WARNING: unhandled default value " ++ renderDefault d,
                "    in field: " ++ f.name])

/-! ## Behavior of the emitted struct decoder/encoder
(`_impl_serde_for_struct`, lines 214-268)

The generated Rust visitor is modelled as a function over an abstract value
type `V`.  A wire value is `Option V`: `some v` is a concrete value, `none`
is the wire null that serde produces when serializing an absent `Option`
field.  `nextValue` models the framework's typed `map.next_value()?` call:
reading a concrete field value fails on the wire null. -/

/-- A field as seen by the generated `visit_map`: its wire name, whether its
declared type is `Nullable`, and its synthesized default expression value
(`none` when the field has no default). -/
structure FieldSpec (V : Type) where
  name : String
  nullable : Bool
  defaultVal : Option V
deriving DecidableEq

/-- Errors surfaced by the generated decoder: the three `de::Error` calls it
emits, plus the framework-level error of `map.next_value()?` when the wire
value cannot be read at the field's type (e.g. a wire null for a
non-optional Rust type). -/
inductive DecodeErr where
  | duplicateField (name : String)
  | unknownField (key : String) (fields : List String)
  | missingField (name : String)
  | invalidValue
deriving DecidableEq

/-- A decoded struct member: nullable fields hold an `Option`, all others a
plain value. -/
inductive FieldVal (V : Type) where
  | optional (v : Option V)
  | required (v : V)
deriving DecidableEq

/-- The framework's `map.next_value()?` at a concrete field type: a wire
null cannot be read back as a plain value. -/
def nextValue {V : Type} : Option V → Except DecodeErr V
  | some v => .ok v
  | none => .error .invalidValue

/-- The decoder state: one accumulator per field, all initialized to `None`
(`let mut f = None;` lines 225-226). -/
abbrev DecState (V : Type) := List (FieldSpec V × Option V)

/-- One `match key` dispatch (lines 227-234): find the first field whose
declared name equals the key; if it is already set fail with
`duplicate_field`, otherwise read the value and store it.  Returns `none`
when no field name matches (the wildcard arm raises `unknown_field`). -/
def assignKey {V : Type} : DecState V → String → Option V → Option (Except DecodeErr (DecState V))
  | [], _, _ => none
  | (f, acc) :: rest, key, w =>
    if f.name == key then
      some (if acc.isSome then .error (.duplicateField f.name)
            else (nextValue w).map (fun v => (f, some v) :: rest))
    else (assignKey rest key w).map (fun r => r.map (fun st => (f, acc) :: st))

/-- The `while let Some(key) = map.next_key()?` loop (lines 227-234). -/
def visitEntries {V : Type} : DecState V → List (String × Option V) → Except DecodeErr (DecState V)
  | st, [] => .ok st
  | st, (key, w) :: rest =>
    match assignKey st key w with
    | none => .error (.unknownField key (st.map (fun p => p.1.name)))
    | some (.error e) => .error e
    | some (.ok st') => visitEntries st' rest

/-- Field resolution after the entry loop (lines 235-246): a nullable field
keeps its accumulator as-is, a default-bearing field falls back to the
synthesized default (`unwrap_or_else`), any other absent field raises
`missing_field`. -/
def resolveField {V : Type} (f : FieldSpec V) (acc : Option V) : Except DecodeErr (FieldVal V) :=
  if f.nullable then .ok (.optional acc)
  else
    match f.defaultVal with
    | some d => .ok (.required (acc.getD d))
    | none =>
      match acc with
      | some v => .ok (.required v)
      | none => .error (.missingField f.name)

/-- Resolve every field in declaration order (the struct literal of lines
235-246). -/
def resolveAll {V : Type} : DecState V → Except DecodeErr (List (FieldVal V))
  | [] => .ok []
  | (f, acc) :: rest => do
      let v ← resolveField f acc
      let vs ← resolveAll rest
      .ok (v :: vs)

/-- The full generated struct decoder: initialize every accumulator to
absent, run the entry loop, then resolve. -/
def structDecode {V : Type} (fields : List (FieldSpec V)) (entries : List (String × Option V)) :
    Except DecodeErr (List (FieldVal V)) :=
  (visitEntries (fields.map (fun f => (f, none))) entries).bind resolveAll

/-- Wire form of one struct member, as written by `serialize_field`
(lines 263-266): a nullable member serializes its `Option` (null when
absent), any other member serializes its plain value. -/
def encodeFieldVal {V : Type} : FieldVal V → Option V
  | .optional o => o
  | .required v => some v

/-- A serialized struct document.  The generated encoder writes either a
unit value (`serializer.serialize_unit_struct`, lines 257-258, when the
struct has no fields) or a flat field map (lines 260-267). -/
inductive WireDoc (V : Type) where
  | unitDoc
  | mapDoc (entries : List (String × Option V))
deriving DecidableEq

/-- The field-map part of the generated struct encoder (lines 260-267): one
`serialize_field(name, value)` per field, in declaration order. -/
def structEncodeFields {V : Type} (fields : List (FieldSpec V)) (vals : List (FieldVal V)) :
    List (String × Option V) :=
  (fields.zip vals).map (fun p => (p.1.name, encodeFieldVal p.2))

/-- The generated struct encoder (lines 255-267): a struct with no fields
is written as a unit value (`if not struct.all_fields:
serialize_unit_struct`, lines 257-258), any other struct as the field
map. -/
def structEncode {V : Type} (fields : List (FieldSpec V)) (vals : List (FieldVal V)) :
    WireDoc V :=
  if fields.isEmpty then .unitDoc else .mapDoc (structEncodeFields fields vals)

/-- The generated struct deserializer as driven by the serialization
framework: `_deserializer.deserialize_struct(name, FIELDS, StructVisitor)`
(line 252) hands the input document to `StructVisitor`, which implements
only `visit_map` (lines 224-246); a unit document therefore fails with the
framework's type error, while a field map runs the entry loop and the
field resolution. -/
def structDeserialize {V : Type} (fields : List (FieldSpec V)) :
    WireDoc V → Except DecodeErr (List (FieldVal V))
  | .unitDoc => .error .invalidValue
  | .mapDoc entries => structDecode fields entries

/-- A struct value fits its field list when nullable fields hold the
`optional` form and all other fields the `required` form; for the round-trip
statement the optional values are additionally present (`some`), since the
emitted decoder reads every present key at the field's inner type. -/
def fieldMatches {V : Type} (f : FieldSpec V) : FieldVal V → Prop
  | .optional o => f.nullable = true ∧ o.isSome = true
  | .required _ => f.nullable = false

/-! ## Behavior of the emitted union serializer
(`_impl_serde_for_union`, lines 295-340) -/

/-- A union variant: its declared name and payload type (`Void` for a unit
variant). -/
structure UnionField where
  name : String
  dtype : DType
deriving DecidableEq

/-- What one serializer branch writes: the name literal passed to
`serialize_struct` (as it appears in the emitted text), the declared field
count, and the field keys bound by `serialize_field`, in order. -/
structure VariantSer where
  declaredName : String
  declaredSize : Nat
  boundFields : List String
deriving DecidableEq

/-- One branch of the generated union serializer (lines 303-339):
a void payload writes a 1-element field set holding only `.tag` under the
union's name; a union or polymorphic-struct payload writes `.tag` plus the
payload nested under the variant's name, with the `serialize_struct` name
argument left as the unsubstituted literal placeholder (the Python source
omits `.format` on lines 319 and 336); a plain-struct payload writes `.tag`
plus the payload struct's own fields flattened, with declared size
`len(all_fields) + 1`; any other payload takes the primitive branch,
identical to the union case. -/
def unionVariantSer (unionName : String) (f : UnionField) : VariantSer :=
  match f.dtype with
  | .void => ⟨unionName, 1, [".tag"]⟩
  | .union _ _ _ _ => ⟨"\x7b\x7d", 2, [".tag", f.name]⟩
  | .structT _ _ _ true => ⟨"\x7b\x7d", 2, [".tag", f.name]⟩
  | .structT _ _ fieldNames false => ⟨unionName, fieldNames.length + 1, ".tag" :: fieldNames⟩
  | _ => ⟨"\x7b\x7d", 2, [".tag", f.name]⟩

/-- Payload classes that take the else-branch of the serializer (neither
void, nor a struct, nor a union): the claim's "primitive (non-struct)"
payloads. -/
def isPrimitivePayload : DType → Bool
  | .void => false
  | .structT _ _ _ _ => false
  | .union _ _ _ _ => false
  | _ => true

/-! ## Route emission (`_emit_route`, lines 156-206) -/

/-- A route declaration: name, the `host` / `style` attributes (absent keys
default to `api` / `rpc` via `attrs.get`), and the argument, result and
error types. -/
structure Route where
  name : String
  host : Option String
  style : Option String
  arg : DType
  result : DType
  err : DType
deriving DecidableEq

/-- Host resolution (lines 159-168): three fixed endpoints, anything else
is an error that skips the route. -/
def endpointOf : String → Option String
  | "api" => some "::client_trait::Endpoint::Api"
  | "content" => some "::client_trait::Endpoint::Content"
  | "notify" => some "::client_trait::Endpoint::Notify"
  | _ => none

/-- The shape of one emitted route function: its Rust name, endpoint, path
string, the mapped argument/result/error types, which helper it delegates
to, which extra parameters it takes, and what it forwards. -/
structure RouteOut where
  fnName : String
  endpoint : String
  path : String
  argType : String
  resultType : String
  errType : String
  usesBodyHelper : Bool
  hasRangeParams : Bool
  hasBodyParam : Bool
  passesBody : Bool
  passesRange : Bool
  wrapsHttpResult : Bool
deriving DecidableEq

/-- `_emit_route` (lines 156-206).  Returns `none` when the route is
skipped (unrecognized host or style, lines 166-168 and 203-205). -/
def emit_route (ns : String) (r : Route) : Option RouteOut :=
  match endpointOf (r.host.getD "api") with
  | none => none
  | some ep =>
    let style := r.style.getD "rpc"
    if style == "rpc" then
      some { fnName := route_name r.name
             endpoint := ep
             path := ns ++ "/" ++ r.name
             argType := (rust_type ns r.arg).1
             resultType := (rust_type ns r.result).1
             errType := (rust_type ns r.err).1
             usesBodyHelper := false
             hasRangeParams := false
             hasBodyParam := false
             passesBody := false
             passesRange := false
             wrapsHttpResult := false }
    else if style == "download" then
      some { fnName := route_name r.name
             endpoint := ep
             path := ns ++ "/" ++ r.name
             argType := (rust_type ns r.arg).1
             resultType := (rust_type ns r.result).1
             errType := (rust_type ns r.err).1
             usesBodyHelper := true
             hasRangeParams := true
             hasBodyParam := false
             passesBody := false
             passesRange := true
             wrapsHttpResult := true }
    else if style == "upload" then
      some { fnName := route_name r.name
             endpoint := ep
             path := ns ++ "/" ++ r.name
             argType := (rust_type ns r.arg).1
             resultType := (rust_type ns r.result).1
             errType := (rust_type ns r.err).1
             usesBodyHelper := true
             hasRangeParams := false
             hasBodyParam := true
             passesBody := true
             passesRange := false
             wrapsHttpResult := true }
    else none

/-! ## The namespace driver (`_emit_namespace` lines 45-78,
`_generate_mod_file` lines 37-41, `generate` lines 32-35) -/

/-- A type alias declaration. -/
structure AliasDecl where
  name : String
  dtype : DType
deriving DecidableEq

/-- A namespace: its raw name, optional doc, and its aliases, routes and
user-defined types, in declaration order. -/
structure SchemaNamespace where
  name : String
  doc : Option String
  aliases : List AliasDecl
  routes : List Route
  types : List DType
deriving DecidableEq

/-- `_emit_alias` (lines 208-210). -/
def alias_line (currentNamespace : String) (a : AliasDecl) : String :=
  "pub type " ++ alias_name a.name ++ " = " ++ (rust_type currentNamespace a.dtype).1 ++ ";"

/-- The type dispatch of `_emit_namespace` (lines 65-76): a struct with
enumerated subtypes becomes a polymorphic enum, a plain struct a struct, a
union an enum; anything else prints a warning and is skipped. -/
def emitTypeDecl (_currentNamespace : String) : DType → Option String
  | .structT _ n _ true => some ("pub enum " ++ enum_name n)
  | .structT _ n _ false => some ("pub struct " ++ struct_name n)
  | .union _ n _ _ => some ("pub enum " ++ enum_name n)
  | _ => none

/-- What `_emit_namespace` produces for one namespace: the output file name
(raw namespace name plus `.rs`, line 46), the alias lines, the emitted
routes (skipped ones dropped), and the emitted type declarations. -/
structure NsOut where
  fileName : String
  aliases : List String
  routes : List RouteOut
  types : List String
deriving DecidableEq

/-- `_emit_namespace` (lines 45-78): aliases, then routes, then types; a
route whose emission fails is simply skipped. -/
def emit_namespace (ns : SchemaNamespace) : NsOut :=
  { fileName := ns.name ++ ".rs"
    aliases := ns.aliases.map (alias_line ns.name)
    routes := ns.routes.filterMap (emit_route ns.name)
    types := ns.types.filterMap (emitTypeDecl ns.name) }

/-- `generate` plus `_generate_mod_file` (lines 32-41): emit every
namespace, then one `pub mod` line per namespace, using the raw namespace
name, in processing order. -/
def generate (api : List SchemaNamespace) : List NsOut × List String :=
  (api.map emit_namespace, api.map (fun ns => "pub mod " ++ ns.name ++ ";"))

deriving instance DecidableEq for Except

/-! ## Claim theorems -/

/-- Claim C2 (amended): in the generated union serializer, a void-payload
variant encodes to a field set of declared size exactly 1 containing only
`.tag`; a variant whose payload is a plain struct with N fields encodes to a
field set of declared size exactly N+1 with the payload struct's fields
flattened directly into the outer field set under their own names; and a
variant whose payload is a fieldless plain struct encodes to a field set of
declared size exactly 1 (not 2) with `.tag` and nothing else bound. -/
theorem c2_union_variant_field_sets (un : String) (f : UnionField) :
    (f.dtype = .void → unionVariantSer un f = ⟨un, 1, [".tag"]⟩) ∧
    (∀ ns sn fs, f.dtype = .structT ns sn fs false →
      unionVariantSer un f = ⟨un, fs.length + 1, ".tag" :: fs⟩) ∧
    (∀ ns sn, f.dtype = .structT ns sn [] false →
      (unionVariantSer un f).declaredSize = 1 ∧
      (unionVariantSer un f).boundFields = [".tag"]) := by
  obtain ⟨nm, t⟩ := f
  refine ⟨fun h => ?_, fun ns sn fs h => ?_, fun ns sn h => ?_⟩ <;>
    (simp only [] at h; subst h; simp [unionVariantSer])

/-- Witness for C2: the void case and a two-field plain-struct payload,
evaluated concretely. -/
theorem c2_union_variant_field_sets_witness :
    unionVariantSer "TestUnion" ⟨"v", DType.void⟩ = ⟨"TestUnion", 1, [".tag"]⟩ ∧
    unionVariantSer "TestUnion" ⟨"v", DType.structT "ns" "S" ["a", "b"] false⟩
      = ⟨"TestUnion", 3, [".tag", "a", "b"]⟩ :=
  ⟨(c2_union_variant_field_sets "TestUnion" ⟨"v", DType.void⟩).1 rfl,
   (c2_union_variant_field_sets "TestUnion"
      ⟨"v", DType.structT "ns" "S" ["a", "b"] false⟩).2.1 "ns" "S" ["a", "b"] rfl⟩

/-- Counterexample for C2 as stated: a variant whose payload is a fieldless
plain struct is serialized with declared field-set size 1, not 2 — the
generator's plain-struct branch computes `len(all_fields) + 1 = 1`. -/
theorem c2_fieldless_struct_size_one :
    (unionVariantSer "U" ⟨"v", DType.structT "ns" "S" [] false⟩).declaredSize = 1 ∧
    (unionVariantSer "U" ⟨"v", DType.structT "ns" "S" [] false⟩).declaredSize ≠ 2 := by
  constructor <;> simp [unionVariantSer]

/-- Claim C9: for a union variant whose payload type is a union, a
polymorphic struct, or a primitive (non-struct) type, the emitted serializer
opens its field set with the two-character literal placeholder (the Python
format placeholder is emitted unsubstituted, lines 319 and 336); only unit
variants and plain-struct-payload variants open the field set with the
union's actual name. -/
theorem c9_union_serializer_placeholder_name (un : String) (f : UnionField) :
    (∀ a b v w, f.dtype = .union a b v w → (unionVariantSer un f).declaredName = "\x7b\x7d") ∧
    (∀ a b fs, f.dtype = .structT a b fs true → (unionVariantSer un f).declaredName = "\x7b\x7d") ∧
    (isPrimitivePayload f.dtype = true → (unionVariantSer un f).declaredName = "\x7b\x7d") ∧
    (un ≠ "\x7b\x7d" →
      ((unionVariantSer un f).declaredName = un ↔
        f.dtype = .void ∨ ∃ a b fs, f.dtype = .structT a b fs false)) := by
  obtain ⟨nm, t⟩ := f
  refine ⟨fun a b v w h => ?_, fun a b fs h => ?_, fun h => ?_, fun h => ?_⟩
  · simp only [] at h; subst h; simp [unionVariantSer]
  · simp only [] at h; subst h; simp [unionVariantSer]
  · cases t <;> simp_all [unionVariantSer, isPrimitivePayload]
  · cases t
    case void => simp [unionVariantSer]
    case structT a b fs es =>
      cases es
      · exact iff_of_true rfl (Or.inr ⟨a, b, fs, rfl⟩)
      · exact iff_of_false (fun he => h he.symm) (by simp)
    all_goals exact iff_of_false (fun he => h he.symm) (by simp)

/-- Witness for C9: concrete payloads of each class. -/
theorem c9_union_serializer_placeholder_name_witness :
    (unionVariantSer "U" ⟨"v", DType.union "ns" "W" [] []⟩).declaredName = "\x7b\x7d" ∧
    (unionVariantSer "U" ⟨"v", DType.structT "ns" "P" ["x"] true⟩).declaredName = "\x7b\x7d" ∧
    (unionVariantSer "U" ⟨"v", DType.int32⟩).declaredName = "\x7b\x7d" ∧
    (unionVariantSer "U" ⟨"v", DType.void⟩).declaredName = "U" :=
  ⟨(c9_union_serializer_placeholder_name "U" ⟨"v", DType.union "ns" "W" [] []⟩).1
      "ns" "W" [] [] rfl,
   (c9_union_serializer_placeholder_name "U" ⟨"v", DType.structT "ns" "P" ["x"] true⟩).2.1
      "ns" "P" ["x"] rfl,
   (c9_union_serializer_placeholder_name "U" ⟨"v", DType.int32⟩).2.2.1 rfl,
   ((c9_union_serializer_placeholder_name "U" ⟨"v", DType.void⟩).2.2.2
      (by decide)).mpr (Or.inl rfl)⟩

/-- Claim C5: the Type Mapper is a structural recursion — `nullable(T)` maps
to `Option` of the mapped `T`, `list(T)` to `Vec`, `map(K,V)` to `HashMap`
of the mapped key and value, `timestamp` to a string placeholder; an
alias/struct/union reference maps to its resolver-produced name, qualified
with the owning namespace's resolved module name exactly when that
namespace differs from the current one; and an unrecognized descriptor
produces a diagnostic and the unit type as a non-fatal placeholder (the
function is total, so the run never aborts). -/
theorem c5_rust_type_structural (c : String) :
    (∀ t, rust_type c (.nullable t) = ("Option<" ++ (rust_type c t).1 ++ ">", (rust_type c t).2)) ∧
    (∀ t, rust_type c (.listT t) = ("Vec<" ++ (rust_type c t).1 ++ ">", (rust_type c t).2)) ∧
    (∀ k v, rust_type c (.mapT k v) =
      ("HashMap<" ++ (rust_type c k).1 ++ ", " ++ (rust_type c v).1 ++ ">",
       (rust_type c k).2 ++ (rust_type c v).2)) ∧
    (rust_type c .timestamp = ("String /*Timestamp*/", [])) ∧
    (∀ ns n t, ns = c → (rust_type c (.alias ns n t)).1 = alias_name n) ∧
    (∀ ns n t, ns ≠ c →
      (rust_type c (.alias ns n t)).1 = "super::" ++ namespace_name ns ++ "::" ++ alias_name n) ∧
    (∀ ns n fs es, ns = c → (rust_type c (.structT ns n fs es)).1 = struct_name n) ∧
    (∀ ns n fs es, ns ≠ c →
      (rust_type c (.structT ns n fs es)).1 = "super::" ++ namespace_name ns ++ "::" ++ struct_name n) ∧
    (∀ ns n v w, ns = c → (rust_type c (.union ns n v w)).1 = enum_name n) ∧
    (∀ ns n v w, ns ≠ c →
      (rust_type c (.union ns n v w)).1 = "super::" ++ namespace_name ns ++ "::" ++ enum_name n) ∧
    (∀ d, (rust_type c (.unknownDescriptor d)).1 = "()" ∧ (rust_type c (.unknownDescriptor d)).2 ≠ []) ∧
    (∀ ns n, (rust_type c (.userDefinedOther ns n)).1 = "()" ∧ (rust_type c (.userDefinedOther ns n)).2 ≠ []) := by
  refine ⟨fun t => rfl, fun t => rfl, fun k v => rfl, rfl,
    fun ns n t h => ?_, fun ns n t h => ?_,
    fun ns n fs es h => ?_, fun ns n fs es h => ?_,
    fun ns n v w h => ?_, fun ns n v w h => ?_,
    fun d => ⟨rfl, by simp [rust_type]⟩, fun ns n => ⟨rfl, by simp [rust_type]⟩⟩ <;>
  simp [rust_type, h]

/-- Witness for C5: cross- and same-namespace qualification at concrete
inputs. -/
theorem c5_rust_type_structural_witness :
    (rust_type "files" (.structT "files" "box" [] false)).1 = struct_name "box" ∧
    (rust_type "files" (.structT "users" "box" [] false)).1
      = "super::" ++ namespace_name "users" ++ "::" ++ struct_name "box" ∧
    (rust_type "files" (.alias "users" "MyAlias" .int32)).1
      = "super::" ++ namespace_name "users" ++ "::" ++ alias_name "MyAlias" :=
  ⟨(c5_rust_type_structural "files").2.2.2.2.2.2.1 "files" "box" [] false rfl,
   (c5_rust_type_structural "files").2.2.2.2.2.2.2.1 "users" "box" [] false (by decide),
   (c5_rust_type_structural "files").2.2.2.2.2.1 "users" "MyAlias" DType.int32 (by decide)⟩

/-- Claim C4: the Default Value Synthesizer applies its cases in priority
order — a nullable field yields the absent literal before any other rule; a
numeric field (after alias unwrapping) yields the literal default verbatim;
a tag-reference default looks up the named variant in the referenced union's
field list by exact name match and, when no variant matches, logs
diagnostics listing the known variant names and falls back to the last
variant scanned, emitting the qualified variant constructor expression;
booleans yield literal `true`/`false`; strings yield an empty-string
constructor for a falsy default and a quoted literal otherwise; anything
else logs an unhandled-default diagnostic and passes the raw default
through. -/
theorem c4_default_value_priority (c : String) (f : FieldD) :
    (∀ t, f.dtype = .nullable t → default_value c f = (some "None", [])) ∧
    ((∀ t, f.dtype ≠ .nullable t) → is_numeric_type (unwrapAliases f.dtype) = true →
      default_value c f = (some (renderDefault f.defaultVal), [])) ∧
    (∀ uns un allF ownF tag v,
      (∀ t, f.dtype ≠ .nullable t) → is_numeric_type (unwrapAliases f.dtype) = false →
      f.defaultVal = .tagRef uns un allF ownF tag →
      scanLast allF tag = some v →
      default_value c f =
        (some ((rust_type c (.union uns un allF ownF)).1 ++ "::" ++ enum_variant_name v), [])) ∧
    (∀ uns un allF ownF tag v,
      (∀ t, f.dtype ≠ .nullable t) → is_numeric_type (unwrapAliases f.dtype) = false →
      f.defaultVal = .tagRef uns un allF ownF tag →
      scanLast allF tag = none → ownF.getLast? = some v →
      default_value c f =
        (some ((rust_type c (.union uns un allF ownF)).1 ++ "::" ++ enum_variant_name v),
         ("ERROR: didn't find matching variant: " ++ tag)
           :: ownF.map (fun x => "variant.name = " ++ x))) ∧
    (∀ b, f.dtype = .boolean → f.defaultVal = .pbool b →
      default_value c f = (some (if b then "true" else "false"), [])) ∧
    (∀ s, f.dtype = .stringT → f.defaultVal = .pstr s →
      default_value c f =
        (some (if s.isEmpty then "String::new()" else "\"" ++ s ++ "\".to_owned()"), [])) ∧
    ((∀ t, f.dtype ≠ .nullable t) → is_numeric_type (unwrapAliases f.dtype) = false →
      (∀ uns un allF ownF tag, f.defaultVal ≠ .tagRef uns un allF ownF tag) →
      f.dtype ≠ .boolean → f.dtype ≠ .stringT →
      (default_value c f).1 = some (renderDefault f.defaultVal) ∧
      (default_value c f).2 ≠ []) := by
  obtain ⟨nm, dt, d⟩ := f
  refine ⟨fun t h => ?_, fun hnn hnum => ?_, fun uns un allF ownF tag v hnn hnum hd hscan => ?_,
    fun uns un allF ownF tag v hnn hnum hd hscan hlast => ?_,
    fun b hdt hd => ?_, fun s hdt hd => ?_, fun hnn hnum hd hb hs => ?_⟩
  · simp only [] at h; subst h; rfl
  · cases dt <;> simp_all [default_value]
  · simp only [] at hd; subst hd
    cases dt <;> simp_all [default_value]
  · simp only [] at hd; subst hd
    cases dt <;> simp_all [default_value]
  · simp only [] at hdt hd; subst hdt; subst hd
    cases b <;> simp [default_value, truthy, unwrapAliases, is_numeric_type]
  · simp only [] at hdt hd; subst hdt; subst hd
    by_cases he : s.isEmpty <;>
      simp [default_value, truthy, unwrapAliases, is_numeric_type, renderDefault, he]
  · cases d
    case tagRef a b v w e => exact absurd rfl (hd a b v w e)
    all_goals
      cases dt <;>
        first
          | exact absurd rfl (hnn _)
          | simp_all [default_value, unwrapAliases, is_numeric_type, renderDefault]

/-- Witness for C4: one concrete input per policy clause. -/
theorem c4_default_value_priority_witness :
    default_value "ns" ⟨"f", .nullable .int32, .pnum "3"⟩ = (some "None", []) ∧
    default_value "ns" ⟨"f", .alias "ns" "A" .uint64, .pnum "3"⟩ = (some "3", []) ∧
    default_value "ns" ⟨"f", .union "m" "U" ["a", "b"] ["a", "b"],
        .tagRef "m" "U" ["a", "b"] ["a", "b"] "b"⟩
      = (some ((rust_type "ns" (.union "m" "U" ["a", "b"] ["a", "b"])).1
          ++ "::" ++ enum_variant_name "b"), []) ∧
    default_value "ns" ⟨"f", .union "m" "U" ["a", "b"] ["a", "b"],
        .tagRef "m" "U" ["a", "b"] ["a", "b"] "zz"⟩
      = (some ((rust_type "ns" (.union "m" "U" ["a", "b"] ["a", "b"])).1
          ++ "::" ++ enum_variant_name "b"),
         ["ERROR: didn't find matching variant: zz", "variant.name = a", "variant.name = b"]) ∧
    default_value "ns" ⟨"f", .boolean, .pbool false⟩ = (some "false", []) ∧
    default_value "ns" ⟨"f", .stringT, .pstr "hi"⟩ = (some "\"hi\".to_owned()", []) ∧
    (default_value "ns" ⟨"f", .timestamp, .pstr "x"⟩).1 = some "x" ∧
    (default_value "ns" ⟨"f", .timestamp, .pstr "x"⟩).2 ≠ [] := by
  have h1 := (c4_default_value_priority "ns" ⟨"f", .nullable .int32, .pnum "3"⟩).1
    DType.int32 rfl
  have h2 := (c4_default_value_priority "ns" ⟨"f", .alias "ns" "A" .uint64, .pnum "3"⟩).2.1
    (by intro t h; cases h) (by decide)
  have h3 := (c4_default_value_priority "ns" ⟨"f", .union "m" "U" ["a", "b"] ["a", "b"],
      .tagRef "m" "U" ["a", "b"] ["a", "b"] "b"⟩).2.2.1
    "m" "U" ["a", "b"] ["a", "b"] "b" "b" (by intro t h; cases h) (by decide) rfl (by decide)
  have h4 := (c4_default_value_priority "ns" ⟨"f", .union "m" "U" ["a", "b"] ["a", "b"],
      .tagRef "m" "U" ["a", "b"] ["a", "b"] "zz"⟩).2.2.2.1
    "m" "U" ["a", "b"] ["a", "b"] "zz" "b" (by intro t h; cases h) (by decide) rfl
    (by decide) (by decide)
  have h5 := (c4_default_value_priority "ns" ⟨"f", .boolean, .pbool false⟩).2.2.2.2.1
    false rfl rfl
  have h6 := (c4_default_value_priority "ns" ⟨"f", .stringT, .pstr "hi"⟩).2.2.2.2.2.1
    "hi" rfl rfl
  have h7 := (c4_default_value_priority "ns" ⟨"f", .timestamp, .pstr "x"⟩).2.2.2.2.2.2
    (by intro t h; cases h) (by decide) (by intro uns un allF ownF tag h; cases h)
    (by intro h; cases h) (by intro h; cases h)
  refine ⟨h1, h2, ?_, ?_, h5, by simpa using h6, h7.1, h7.2⟩
  · simpa using h3
  · simpa using h4

/-- Claim C6: with host defaulting to `api` and style defaulting to `rpc`,
an rpc route emits a function taking the client handle and an argument,
delegating to the plain-request helper with path exactly
`namespace/route_name` and no body; a download route adds optional
byte-range parameters, wraps success in the HTTP-result envelope, and
delegates to the body-request helper passing the range and no outbound
body; an upload route adds a raw byte payload parameter and delegates to
the same helper passing the body and no range. -/
theorem c6_route_styles (ns : String) (r : Route) (ep : String)
    (hep : endpointOf (r.host.getD "api") = some ep) :
    (r.style.getD "rpc" = "rpc" →
      emit_route ns r = some
        { fnName := route_name r.name, endpoint := ep, path := ns ++ "/" ++ r.name
          argType := (rust_type ns r.arg).1, resultType := (rust_type ns r.result).1
          errType := (rust_type ns r.err).1
          usesBodyHelper := false, hasRangeParams := false, hasBodyParam := false
          passesBody := false, passesRange := false, wrapsHttpResult := false }) ∧
    (r.style.getD "rpc" = "download" →
      emit_route ns r = some
        { fnName := route_name r.name, endpoint := ep, path := ns ++ "/" ++ r.name
          argType := (rust_type ns r.arg).1, resultType := (rust_type ns r.result).1
          errType := (rust_type ns r.err).1
          usesBodyHelper := true, hasRangeParams := true, hasBodyParam := false
          passesBody := false, passesRange := true, wrapsHttpResult := true }) ∧
    (r.style.getD "rpc" = "upload" →
      emit_route ns r = some
        { fnName := route_name r.name, endpoint := ep, path := ns ++ "/" ++ r.name
          argType := (rust_type ns r.arg).1, resultType := (rust_type ns r.result).1
          errType := (rust_type ns r.err).1
          usesBodyHelper := true, hasRangeParams := false, hasBodyParam := true
          passesBody := true, passesRange := false, wrapsHttpResult := true }) := by
  refine ⟨fun h => ?_, fun h => ?_, fun h => ?_⟩ <;> simp [emit_route, hep, h]

/-- Witness for C6: a default-attribute rpc route, a content/download
route, and a content/upload route, evaluated concretely. -/
theorem c6_route_styles_witness :
    emit_route "files" ⟨"list_folder", none, none, .void, .void, .void⟩ = some
      { fnName := route_name "list_folder", endpoint := "::client_trait::Endpoint::Api"
        path := "files/list_folder"
        argType := "()", resultType := "()", errType := "()"
        usesBodyHelper := false, hasRangeParams := false, hasBodyParam := false
        passesBody := false, passesRange := false, wrapsHttpResult := false } ∧
    emit_route "files" ⟨"download", some "content", some "download", .void, .void, .void⟩ = some
      { fnName := route_name "download", endpoint := "::client_trait::Endpoint::Content"
        path := "files/download"
        argType := "()", resultType := "()", errType := "()"
        usesBodyHelper := true, hasRangeParams := true, hasBodyParam := false
        passesBody := false, passesRange := true, wrapsHttpResult := true } ∧
    emit_route "files" ⟨"upload", some "content", some "upload", .void, .void, .void⟩ = some
      { fnName := route_name "upload", endpoint := "::client_trait::Endpoint::Content"
        path := "files/upload"
        argType := "()", resultType := "()", errType := "()"
        usesBodyHelper := true, hasRangeParams := false, hasBodyParam := true
        passesBody := true, passesRange := false, wrapsHttpResult := true } :=
  ⟨(c6_route_styles "files" ⟨"list_folder", none, none, .void, .void, .void⟩
      "::client_trait::Endpoint::Api" rfl).1 rfl,
   (c6_route_styles "files" ⟨"download", some "content", some "download", .void, .void, .void⟩
      "::client_trait::Endpoint::Content" rfl).2.1 rfl,
   (c6_route_styles "files" ⟨"upload", some "content", some "upload", .void, .void, .void⟩
      "::client_trait::Endpoint::Content" rfl).2.2 rfl⟩

/-- Claim C7: a route carrying an unrecognized host or style is the only
route whose emission is skipped; every other route of the namespace, and
all types and aliases, are still emitted (the driver is a total function,
so the generation run completes). -/
theorem c7_bad_route_skipped_alone (ns : SchemaNamespace) (pre : List Route) (r : Route)
    (post : List Route) (hsplit : ns.routes = pre ++ r :: post) :
    (emit_route ns.name r = none ↔
      endpointOf (r.host.getD "api") = none ∨
      (r.style.getD "rpc" ≠ "rpc" ∧ r.style.getD "rpc" ≠ "download" ∧
       r.style.getD "rpc" ≠ "upload")) ∧
    (emit_route ns.name r = none →
      (emit_namespace ns).routes =
        pre.filterMap (emit_route ns.name) ++ post.filterMap (emit_route ns.name)) ∧
    (emit_namespace ns).aliases = ns.aliases.map (alias_line ns.name) ∧
    (emit_namespace ns).types = ns.types.filterMap (emitTypeDecl ns.name) ∧
    (∀ r' o, r' ∈ pre ++ post → emit_route ns.name r' = some o →
      o ∈ (emit_namespace ns).routes) := by
  refine ⟨?_, fun hnone => ?_, rfl, rfl, fun r' o hmem ho => ?_⟩
  · unfold emit_route
    cases hE : endpointOf (r.host.getD "api") <;> simp only [hE]
    · simp
    · split_ifs with h1 h2 h3 <;> simp_all
  · show ns.routes.filterMap (emit_route ns.name) = _
    rw [hsplit, List.filterMap_append, List.filterMap_cons, hnone]
  · have hmem' : r' ∈ ns.routes := by
      rw [hsplit]
      rcases List.mem_append.mp hmem with h | h
      · exact List.mem_append.mpr (Or.inl h)
      · exact List.mem_append.mpr (Or.inr (List.mem_cons_of_mem _ h))
    exact List.mem_filterMap.mpr ⟨r', hmem', ho⟩

/-- Witness for C7: a namespace with one bad-host route between two good
routes keeps both good routes, its alias and its type. -/
theorem c7_bad_route_skipped_alone_witness :
    (emit_namespace
      { name := "files", doc := none
        aliases := [⟨"Id", .stringT⟩]
        routes := [⟨"a", none, none, .void, .void, .void⟩,
                   ⟨"bad", some "weird", none, .void, .void, .void⟩,
                   ⟨"b", none, none, .void, .void, .void⟩]
        types := [.structT "files" "Meta" ["x"] false] }).routes =
      [⟨"a", "::client_trait::Endpoint::Api", "files/a", "()", "()", "()",
        false, false, false, false, false, false⟩,
       ⟨"b", "::client_trait::Endpoint::Api", "files/b", "()", "()", "()",
        false, false, false, false, false, false⟩] ∧
    (emit_namespace
      { name := "files", doc := none
        aliases := [⟨"Id", .stringT⟩]
        routes := [⟨"a", none, none, .void, .void, .void⟩,
                   ⟨"bad", some "weird", none, .void, .void, .void⟩,
                   ⟨"b", none, none, .void, .void, .void⟩]
        types := [.structT "files" "Meta" ["x"] false] }).aliases =
      ["pub type Id = String;"] := by
  have h := c7_bad_route_skipped_alone
    { name := "files", doc := none
      aliases := [⟨"Id", .stringT⟩]
      routes := [⟨"a", none, none, .void, .void, .void⟩,
                 ⟨"bad", some "weird", none, .void, .void, .void⟩,
                 ⟨"b", none, none, .void, .void, .void⟩]
      types := [.structT "files" "Meta" ["x"] false] }
    [⟨"a", none, none, .void, .void, .void⟩]
    ⟨"bad", some "weird", none, .void, .void, .void⟩
    [⟨"b", none, none, .void, .void, .void⟩] rfl
  refine ⟨?_, ?_⟩
  · have h2 := h.2.1 (by decide)
    rw [h2]
    decide
  · have h3 := h.2.2.1
    rw [h3]
    decide

/-! ## Decoder lemmas for the struct codec -/

/-- A key that matches no field in the state makes `assignKey` report no
match. -/
theorem assignKey_none {V : Type} (st : DecState V) (key : String) (w : Option V)
    (h : ∀ p ∈ st, p.1.name ≠ key) : assignKey st key w = none := by
  induction st with
  | nil => rfl
  | cons p rest ih =>
    obtain ⟨f, acc⟩ := p
    have hne : (f.name == key) = false :=
      beq_eq_false_iff_ne.mpr (h ⟨f, acc⟩ (List.mem_cons_self _ _))
    simp only [assignKey, hne, Bool.false_eq_true, if_false]
    rw [ih (fun q hq => h q (List.mem_cons_of_mem _ hq))]
    rfl

/-- A key whose first match is an already-set field makes `assignKey`
report a duplicate-field error. -/
theorem assignKey_duplicate {V : Type} (pre post : DecState V) (f : FieldSpec V) (w0 : V)
    (key : String) (w : Option V) (hkey : f.name = key)
    (hpre : ∀ p ∈ pre, p.1.name ≠ key) :
    assignKey (pre ++ (f, some w0) :: post) key w =
      some (.error (.duplicateField f.name)) := by
  induction pre with
  | nil =>
    simp only [List.nil_append, assignKey, beq_iff_eq, hkey, if_true, Option.isSome_some,
      if_pos]
  | cons p rest ih =>
    obtain ⟨g, acc⟩ := p
    have hne : (g.name == key) = false :=
      beq_eq_false_iff_ne.mpr (hpre ⟨g, acc⟩ (List.mem_cons_self _ _))
    simp only [List.cons_append, assignKey, hne, Bool.false_eq_true, if_false, List.append_eq]
    rw [ih (fun q hq => hpre q (List.mem_cons_of_mem _ hq))]
    rfl

/-- A key whose first match is a still-absent field stores the read value
in place. -/
theorem assignKey_hit {V : Type} (pre post : DecState V) (f : FieldSpec V)
    (key : String) (w : Option V) (hkey : f.name = key)
    (hpre : ∀ p ∈ pre, p.1.name ≠ key) :
    assignKey (pre ++ (f, none) :: post) key w =
      some ((nextValue w).map (fun v => pre ++ (f, some v) :: post)) := by
  induction pre with
  | nil =>
    simp only [List.nil_append, assignKey, beq_iff_eq, hkey, if_true, Option.isSome_none,
      Bool.false_eq_true, if_false]
  | cons p rest ih =>
    obtain ⟨g, acc⟩ := p
    have hne : (g.name == key) = false :=
      beq_eq_false_iff_ne.mpr (hpre ⟨g, acc⟩ (List.mem_cons_self _ _))
    simp only [List.cons_append, assignKey, hne, Bool.false_eq_true, if_false, List.append_eq]
    rw [ih (fun q hq => hpre q (List.mem_cons_of_mem _ hq))]
    cases w <;> rfl

/-- Resolution of an all-nullable struct from an untouched state: every
field resolves to the valid absent case. -/
theorem resolveAll_nullable {V : Type} (fields : List (FieldSpec V))
    (h : ∀ f ∈ fields, f.nullable = true) :
    resolveAll (fields.map (fun f => (f, none)))
      = .ok (fields.map (fun _ => FieldVal.optional none)) := by
  induction fields with
  | nil => rfl
  | cons f fs ih =>
    have hf := h f (List.mem_cons_self _ _)
    have ih' := ih (fun g hg => h g (List.mem_cons_of_mem _ hg))
    simp only [List.map_cons, resolveAll, resolveField, hf, if_true, ih']
    rfl

/-- Claim C1: the emitted struct decoder initializes every field to absent,
fails with a duplicate-field error the moment a key matching a known field
arrives when that field is already set, fails with an unknown-field error
naming the full legal field-name set when a key matches no declared field,
and after the entries are exhausted each nullable field accepts the absent
case as valid, each default-bearing field falls back to the synthesized
default expression, and every other absent field causes a missing-field
error. -/
theorem c1_struct_decoder_errors (V : Type) :
    (∀ (pre post : DecState V) (f : FieldSpec V) (w0 : V) (key : String) (w : Option V)
        (rest : List (String × Option V)),
      f.name = key → (∀ p ∈ pre, p.1.name ≠ key) →
      visitEntries (pre ++ (f, some w0) :: post) ((key, w) :: rest)
        = .error (.duplicateField f.name)) ∧
    (∀ (st : DecState V) (key : String) (w : Option V) (rest : List (String × Option V)),
      (∀ p ∈ st, p.1.name ≠ key) →
      visitEntries st ((key, w) :: rest)
        = .error (.unknownField key (st.map (fun p => p.1.name)))) ∧
    (∀ (f : FieldSpec V) (acc : Option V), f.nullable = true →
      resolveField f acc = .ok (.optional acc)) ∧
    (∀ (f : FieldSpec V) (d : V), f.nullable = false → f.defaultVal = some d →
      resolveField f none = .ok (.required d)) ∧
    (∀ f : FieldSpec V, f.nullable = false → f.defaultVal = none →
      resolveField f none = .error (.missingField f.name)) ∧
    (∀ f : FieldSpec V, f.nullable = false → f.defaultVal = none →
      structDecode [f] [] = .error (.missingField f.name)) ∧
    (∀ (f : FieldSpec V) (d : V), f.nullable = false → f.defaultVal = some d →
      structDecode [f] [] = .ok [.required d]) ∧
    (∀ fields : List (FieldSpec V), (∀ f ∈ fields, f.nullable = true) →
      structDecode fields [] = .ok (fields.map (fun _ => .optional none))) := by
  refine ⟨?_, ?_, ?_, ?_, ?_, ?_, ?_, ?_⟩
  · intro pre post f w0 key w rest hkey hpre
    simp only [visitEntries]
    rw [assignKey_duplicate pre post f w0 key w hkey hpre]
  · intro st key w rest h
    simp only [visitEntries]
    rw [assignKey_none st key w h]
  · intro f acc h
    simp [resolveField, h]
  · intro f d h hd
    simp [resolveField, h, hd]
  · intro f h hd
    simp [resolveField, h, hd]
  · intro f h hd
    simp only [structDecode, List.map_cons, List.map_nil, visitEntries]
    show resolveAll [(f, none)] = _
    simp [resolveAll, resolveField, h, hd]
    rfl
  · intro f d h hd
    simp only [structDecode, List.map_cons, List.map_nil, visitEntries]
    show resolveAll [(f, none)] = _
    simp [resolveAll, resolveField, h, hd]
    rfl
  · intro fields h
    simp only [structDecode, visitEntries]
    show resolveAll (fields.map (fun f => (f, none))) = _
    exact resolveAll_nullable fields h

/-- Witness for C1: each decoder behavior at a concrete field list. -/
theorem c1_struct_decoder_errors_witness :
    visitEntries (V := Nat) [(⟨"a", false, none⟩, some 1)] [("a", some 2)]
      = .error (.duplicateField "a") ∧
    visitEntries (V := Nat) [(⟨"a", false, none⟩, none)] [("zz", some 2)]
      = .error (.unknownField "zz" ["a"]) ∧
    resolveField (V := Nat) ⟨"b", true, none⟩ none = .ok (.optional none) ∧
    resolveField (V := Nat) ⟨"c", false, some 7⟩ none = .ok (.required 7) ∧
    resolveField (V := Nat) ⟨"a", false, none⟩ none = .error (.missingField "a") ∧
    structDecode (V := Nat) [⟨"a", false, none⟩] [] = .error (.missingField "a") ∧
    structDecode (V := Nat) [⟨"c", false, some 7⟩] [] = .ok [.required 7] ∧
    structDecode (V := Nat) [⟨"b", true, none⟩] [] = .ok [.optional none] := by
  have h := c1_struct_decoder_errors Nat
  exact ⟨h.1 [] [] ⟨"a", false, none⟩ 1 "a" (some 2) [] rfl (by simp),
    h.2.1 [(⟨"a", false, none⟩, none)] "zz" (some 2) [] (by decide),
    h.2.2.1 ⟨"b", true, none⟩ none rfl,
    h.2.2.2.1 ⟨"c", false, some 7⟩ 7 rfl rfl,
    h.2.2.2.2.1 ⟨"a", false, none⟩ rfl rfl,
    h.2.2.2.2.2.1 ⟨"a", false, none⟩ rfl rfl,
    h.2.2.2.2.2.2.1 ⟨"c", false, some 7⟩ 7 rfl rfl,
    h.2.2.2.2.2.2.2 [⟨"b", true, none⟩] (by decide)⟩

/-- Feeding the decoder's entry loop exactly the entries the encoder wrote
(all of them readable) fills each accumulator with the encoded value. -/
theorem visitEntries_encode {V : Type} (todo : List (FieldSpec V × FieldVal V)) :
    ∀ done : DecState V,
    (∀ p ∈ todo, ∀ q ∈ done, p.1.name ≠ q.1.name) →
    (todo.map (fun p => p.1.name)).Nodup →
    (∀ p ∈ todo, (encodeFieldVal p.2).isSome = true) →
    visitEntries (done ++ todo.map (fun p => (p.1, none)))
        (todo.map (fun p => (p.1.name, encodeFieldVal p.2)))
      = .ok (done ++ todo.map (fun p => (p.1, encodeFieldVal p.2))) := by
  induction todo with
  | nil =>
    intro done _ _ _
    simp [visitEntries]
  | cons p todo ih =>
    intro done hdisj hnd hsome
    obtain ⟨x, hx⟩ : ∃ x, encodeFieldVal p.2 = some x :=
      Option.isSome_iff_exists.mp (hsome p (List.mem_cons_self _ _))
    have hpre : ∀ q ∈ done, q.1.name ≠ p.1.name :=
      fun q hq => (hdisj p (List.mem_cons_self _ _) q hq).symm
    simp only [List.map_cons, visitEntries]
    rw [assignKey_hit done (todo.map fun r => (r.1, none)) p.1 p.1.name
      (encodeFieldVal p.2) rfl hpre, hx]
    have hnd' : (todo.map (fun r => r.1.name)).Nodup := (List.nodup_cons.mp hnd).2
    have hnotin : p.1.name ∉ todo.map (fun r => r.1.name) := (List.nodup_cons.mp hnd).1
    have hdisj' : ∀ r ∈ todo, ∀ q ∈ done ++ [(p.1, encodeFieldVal p.2)],
        r.1.name ≠ q.1.name := by
      intro r hr q hq
      rcases List.mem_append.mp hq with h | h
      · exact hdisj r (List.mem_cons_of_mem _ hr) q h
      · rcases List.mem_singleton.mp h with rfl
        intro hEq
        exact hnotin (hEq ▸ List.mem_map_of_mem (fun r => r.1.name) hr)
    have ih' := ih (done ++ [(p.1, encodeFieldVal p.2)]) hdisj' hnd'
      (fun r hr => hsome r (List.mem_cons_of_mem _ hr))
    simp only [nextValue, Except.map]
    show visitEntries (done ++ (p.1, some x) :: todo.map fun r => (r.1, none)) _ = _
    rw [List.append_cons done (p.1, some x), ← hx, ih', ← List.append_cons]

/-- Resolving a state in which every accumulator holds its field's encoded
value returns exactly the original values. -/
theorem resolveAll_encoded {V : Type} (l : List (FieldSpec V × FieldVal V))
    (h : ∀ p ∈ l, fieldMatches p.1 p.2) :
    resolveAll (l.map (fun p => (p.1, encodeFieldVal p.2))) = .ok (l.map (fun p => p.2)) := by
  induction l with
  | nil => rfl
  | cons p l ih =>
    have hp := h p (List.mem_cons_self _ _)
    have ih' := ih (fun q hq => h q (List.mem_cons_of_mem _ hq))
    have hres : resolveField p.1 (encodeFieldVal p.2) = .ok p.2 := by
      obtain ⟨f, v⟩ := p
      cases v with
      | optional o =>
        obtain ⟨hn, _⟩ := hp
        have hn' : f.nullable = true := hn
        simp [resolveField, encodeFieldVal, hn']
      | required x =>
        have hn' : f.nullable = false := hp
        cases hd : f.defaultVal <;> simp [resolveField, encodeFieldVal, hn', hd]
    simp only [List.map_cons, resolveAll, hres, ih']
    rfl

/-- Claim C3 (amended): for every plain struct that has at least one field
and whose field names are distinct, and every value of it in which no field
is left to default resolution and in which every nullable field is present
(`Some`), encoding with the emitted serializer and decoding the result with
the emitted deserializer succeeds and reproduces the original field values
exactly — in particular the required-field values. -/
theorem c3_encode_decode_roundtrip (V : Type) (fields : List (FieldSpec V))
    (vals : List (FieldVal V)) (hne : fields ≠ [])
    (hwt : List.Forall₂ fieldMatches fields vals)
    (hnd : (fields.map (fun f => f.name)).Nodup) :
    structDeserialize fields (structEncode fields vals) = .ok vals := by
  rw [structEncode, if_neg (by simpa [List.isEmpty_iff] using hne)]
  show structDecode fields (structEncodeFields fields vals) = .ok vals
  have hlen := hwt.length_eq
  have hfst : (fields.zip vals).map Prod.fst = fields :=
    List.map_fst_zip fields vals (le_of_eq hlen)
  have h1 : fields.map (fun f => (f, (none : Option V)))
      = (fields.zip vals).map (fun p => (p.1, none)) := by
    conv_lhs => rw [← hfst]
    rw [List.map_map]
    rfl
  have hnames : (fields.zip vals).map (fun p => p.1.name) = fields.map (fun f => f.name) := by
    conv_rhs => rw [← hfst]
    rw [List.map_map]
    rfl
  have hforall : ∀ p ∈ fields.zip vals, fieldMatches p.1 p.2 := by
    intro p hp
    obtain ⟨a, b⟩ := p
    exact (List.forall₂_iff_zip.mp hwt).2 hp
  have hsome : ∀ p ∈ fields.zip vals, (encodeFieldVal p.2).isSome = true := by
    intro p hp
    have hm := hforall p hp
    obtain ⟨f, v⟩ := p
    cases v with
    | optional o => simpa [encodeFieldVal] using hm.2
    | required x => rfl
  have hvisit := visitEntries_encode (fields.zip vals) [] (by simp)
    (hnames ▸ hnd) hsome
  simp only [List.nil_append] at hvisit
  show (visitEntries (fields.map (fun f => (f, none))) (structEncodeFields fields vals)).bind
    resolveAll = _
  rw [h1, show structEncodeFields fields vals
      = (fields.zip vals).map (fun p => (p.1.name, encodeFieldVal p.2)) from rfl, hvisit]
  show resolveAll ((fields.zip vals).map fun p => (p.1, encodeFieldVal p.2)) = _
  rw [resolveAll_encoded (fields.zip vals) hforall,
    List.map_snd_zip fields vals (le_of_eq hlen.symm)]

/-- Witness for C3: a three-field struct (required, nullable-present,
default-bearing) round-trips exactly. -/
theorem c3_encode_decode_roundtrip_witness :
    structDeserialize (V := Nat) [⟨"a", false, none⟩, ⟨"b", true, none⟩, ⟨"c", false, some 7⟩]
        (structEncode [⟨"a", false, none⟩, ⟨"b", true, none⟩, ⟨"c", false, some 7⟩]
          [.required 1, .optional (some 2), .required 3])
      = .ok [.required 1, .optional (some 2), .required 3] :=
  c3_encode_decode_roundtrip Nat
    [⟨"a", false, none⟩, ⟨"b", true, none⟩, ⟨"c", false, some 7⟩]
    [.required 1, .optional (some 2), .required 3]
    (by simp)
    (by constructor
        · exact rfl
        · constructor
          · exact ⟨rfl, rfl⟩
          · constructor
            · exact rfl
            · constructor)
    (by decide)

/-- Counterexample for C3 as stated, exhibiting one failing input per
hypothesis the amendment adds.  First, a struct with one nullable field
whose value is absent: the encoder writes the field as the wire null for
the absent `Option`, and the decoder's `map.next_value()?` at the field's
inner type cannot read it back, so the round-trip fails — with no default
resolution involved (the struct has no default-bearing field).  Second, a
fieldless plain struct: the encoder emits a unit value (lines 257-258),
which the map-only `StructVisitor` cannot decode.  Third, a struct with a
duplicated field name: decoding the second written entry trips the
duplicate-field check. -/
theorem c3_roundtrip_fails_on_absent_nullable :
    (structDeserialize (V := Nat) [⟨"a", true, none⟩]
        (structEncode [⟨"a", true, none⟩] [.optional none])
      = .error .invalidValue ∧
     structDeserialize (V := Nat) [⟨"a", true, none⟩]
        (structEncode [⟨"a", true, none⟩] [.optional none])
      ≠ .ok [.optional none]) ∧
    (structEncode (V := Nat) [] [] = .unitDoc ∧
     structDeserialize (V := Nat) [] (structEncode [] []) = .error .invalidValue ∧
     structDeserialize (V := Nat) [] (structEncode [] []) ≠ .ok []) ∧
    (structDeserialize (V := Nat) [⟨"a", false, none⟩, ⟨"a", false, none⟩]
        (structEncode [⟨"a", false, none⟩, ⟨"a", false, none⟩] [.required 1, .required 2])
      = .error (.duplicateField "a") ∧
     structDeserialize (V := Nat) [⟨"a", false, none⟩, ⟨"a", false, none⟩]
        (structEncode [⟨"a", false, none⟩, ⟨"a", false, none⟩] [.required 1, .required 2])
      ≠ .ok [.required 1, .required 2]) := by
  refine ⟨⟨?_, ?_⟩, ⟨?_, ?_, ?_⟩, ⟨?_, ?_⟩⟩ <;> decide

/-! ## Character-level facts about the modelled case conversion -/

/-- Characters are equal exactly when their scalar values are. -/
theorem char_eq_iff_toNat {c d : Char} : c = d ↔ c.toNat = d.toNat :=
  ⟨fun h => by rw [h], fun h => Char.eq_of_val_eq (UInt32.ext h)⟩

/-- `Char.ofNat` at a value below the surrogate range keeps the value. -/
theorem toNat_charOfNat (n : Nat) (h : n < 55296) : (Char.ofNat n).toNat = n := by
  rw [Char.ofNat, dif_pos (Or.inl h)]
  rfl

/-- The scalar value of `toLowerC`. -/
theorem toNat_toLowerC (c : Char) :
    (toLowerC c).toNat = if 65 ≤ c.toNat ∧ c.toNat ≤ 90 then c.toNat + 32 else c.toNat := by
  unfold toLowerC
  split_ifs with h
  · exact toNat_charOfNat _ (by omega)
  · rfl

/-- The scalar value of `toUpperC`. -/
theorem toNat_toUpperC (c : Char) :
    (toUpperC c).toNat = if 97 ≤ c.toNat ∧ c.toNat ≤ 122 then c.toNat - 32 else c.toNat := by
  unfold toUpperC
  split_ifs with h
  · exact toNat_charOfNat _ (by omega)
  · rfl

/-- Unfolding of the uppercase test. -/
theorem isUpperC_iff {c : Char} : isUpperC c = true ↔ 65 ≤ c.toNat ∧ c.toNat ≤ 90 := by
  simp [isUpperC]

/-- Unfolding of the delimiter test. -/
theorem isDelim_iff {c : Char} :
    isDelim c = true ↔ c.toNat = 95 ∨ c.toNat = 45 ∨ c.toNat = 47 ∨ c.toNat = 32 := by
  constructor
  · intro h
    rcases (by simpa [isDelim, or_assoc] using h : c = '_' ∨ c = '-' ∨ c = '/' ∨ c = ' ') with
      rfl | rfl | rfl | rfl
    · exact Or.inl rfl
    · exact Or.inr (Or.inl rfl)
    · exact Or.inr (Or.inr (Or.inl rfl))
    · exact Or.inr (Or.inr (Or.inr rfl))
  · intro h
    rcases h with h | h | h | h
    · have : c = '_' := char_eq_iff_toNat.mpr h
      subst this; rfl
    · have : c = '-' := char_eq_iff_toNat.mpr h
      subst this; rfl
    · have : c = '/' := char_eq_iff_toNat.mpr h
      subst this; rfl
    · have : c = ' ' := char_eq_iff_toNat.mpr h
      subst this; rfl

/-- Lower-casing never yields an uppercase character. -/
theorem isUpperC_toLowerC (c : Char) : isUpperC (toLowerC c) = false := by
  rw [← Bool.not_eq_true, isUpperC_iff, toNat_toLowerC]
  split_ifs with h <;> omega

/-- Lower-casing fixes non-uppercase characters. -/
theorem toLowerC_of_not_upper {c : Char} (h : isUpperC c = false) : toLowerC c = c := by
  rw [← Bool.not_eq_true, isUpperC_iff] at h
  exact if_neg h

/-- Lower-casing is idempotent. -/
theorem toLowerC_idem (c : Char) : toLowerC (toLowerC c) = toLowerC c :=
  toLowerC_of_not_upper (isUpperC_toLowerC c)

/-- Upper-casing fixes characters outside the lowercase range. -/
theorem toUpperC_of_not_lower {c : Char} (h : ¬(97 ≤ c.toNat ∧ c.toNat ≤ 122)) :
    toUpperC c = c :=
  if_neg h

/-- Upper-casing is idempotent. -/
theorem toUpperC_idem (c : Char) : toUpperC (toUpperC c) = toUpperC c := by
  by_cases h : 97 ≤ c.toNat ∧ c.toNat ≤ 122
  · apply toUpperC_of_not_lower
    rw [toNat_toUpperC, if_pos h]
    omega
  · rw [toUpperC_of_not_lower h]
    exact toUpperC_of_not_lower h

/-- Uppercase characters are fixed by upper-casing. -/
theorem toUpperC_of_upper {c : Char} (h : isUpperC c = true) : toUpperC c = c := by
  rw [isUpperC_iff] at h
  exact toUpperC_of_not_lower (by omega)

/-- Lower-casing never produces a delimiter. -/
theorem isDelim_toLowerC {c : Char} (h : isDelim c = false) : isDelim (toLowerC c) = false := by
  rw [← Bool.not_eq_true, isDelim_iff] at h ⊢
  rw [toNat_toLowerC]
  split_ifs with hu <;> omega

/-- Upper-casing never produces a delimiter. -/
theorem isDelim_toUpperC {c : Char} (h : isDelim c = false) : isDelim (toUpperC c) = false := by
  rw [← Bool.not_eq_true, isDelim_iff] at h ⊢
  rw [toNat_toUpperC]
  split_ifs with hu <;> omega

/-- Uppercase characters are not delimiters. -/
theorem isDelim_of_upper {c : Char} (h : isUpperC c = true) : isDelim c = false := by
  rw [isUpperC_iff] at h
  rw [← Bool.not_eq_true, isDelim_iff]
  omega

/-! ## Word-splitting lemmas for the modelled case converters -/

/-- Membership in a flushed accumulator. -/
theorem mem_flushWord {v cur : List Char} (h : v ∈ flushWord cur) : v = cur ∧ cur ≠ [] := by
  unfold flushWord at h
  split_ifs at h with he
  · cases h
  · rcases List.mem_singleton.mp h with rfl
    exact ⟨rfl, by simpa [List.isEmpty_iff] using he⟩

/-- One-step unfolding of the splitter on an empty input. -/
theorem wordsAux_nil (cur : List Char) : wordsAux cur [] = flushWord cur := rfl

/-- One-step unfolding of the splitter on one character. -/
theorem wordsAux_cons (cur : List Char) (c : Char) (rest : List Char) :
    wordsAux cur (c :: rest) =
      if isDelim c = true then flushWord cur ++ wordsAux [] rest
      else if isUpperC c = true then flushWord cur ++ wordsAux [c] rest
      else wordsAux (cur ++ [c]) rest := rfl

/-- Words produced by the splitter are never empty. -/
theorem wordsAux_ne_nil : ∀ (s cur v : List Char), v ∈ wordsAux cur s → v ≠ [] := by
  intro s
  induction s with
  | nil =>
    intro cur v h
    obtain ⟨rfl, h2⟩ := mem_flushWord h
    exact h2
  | cons c rest ih =>
    intro cur v h
    unfold wordsAux at h
    split_ifs at h with h1 h2
    · rcases List.mem_append.mp h with h | h
      · obtain ⟨rfl, h2⟩ := mem_flushWord h
        exact h2
      · exact ih [] v h
    · rcases List.mem_append.mp h with h | h
      · obtain ⟨rfl, h2⟩ := mem_flushWord h
        exact h2
      · exact ih [c] v h
    · exact ih (cur ++ [c]) v h

/-- Scanning a run of plain word characters appends them to the
accumulator. -/
theorem wordsAux_append_word : ∀ (w : List Char),
    (∀ c ∈ w, isDelim c = false ∧ isUpperC c = false) →
    ∀ (cur rest : List Char), wordsAux cur (w ++ rest) = wordsAux (cur ++ w) rest := by
  intro w
  induction w with
  | nil =>
    intro _ cur rest
    simp
  | cons c w ih =>
    intro h cur rest
    have hc := h c (List.mem_cons_self _ _)
    simp only [List.cons_append]
    rw [wordsAux_cons, if_neg (by simp [hc.1]), if_neg (by simp [hc.2])]
    rw [ih (fun x hx => h x (List.mem_cons_of_mem _ hx)) (cur ++ [c]) rest]
    rw [← List.append_cons]

/-- A delimiter cleanly splits the word scan. -/
theorem wordsAux_split_delim (d : Char) (hd : isDelim d = true) (b : List Char) :
    ∀ (a cur : List Char), wordsAux cur (a ++ d :: b) = wordsAux cur a ++ wordsAux [] b := by
  intro a
  induction a with
  | nil =>
    intro cur
    simp [wordsAux, hd]
  | cons c a ih =>
    intro cur
    by_cases h1 : isDelim c = true
    · simp only [List.cons_append]
      rw [wordsAux_cons, if_pos h1, ih [], wordsAux_cons, if_pos h1, List.append_assoc]
    · by_cases h2 : isUpperC c = true
      · simp only [List.cons_append]
        rw [wordsAux_cons, if_neg (by simp [h1]), if_pos h2, ih [c],
          wordsAux_cons, if_neg (by simp [h1]), if_pos h2, List.append_assoc]
      · simp only [List.cons_append]
        rw [wordsAux_cons, if_neg (by simp [h1]), if_neg (by simp [h2]), ih (cur ++ [c]),
          wordsAux_cons, if_neg (by simp [h1]), if_neg (by simp [h2])]

/-- Splitting the underscore-joined form of canonical snake words recovers
exactly those words. -/
theorem splitWordsL_joinWith (ws : List (List Char)) (h : ∀ w ∈ ws, snakeWord w) :
    splitWordsL (joinWith '_' ws) = ws := by
  unfold splitWordsL
  induction ws with
  | nil => rfl
  | cons w ws ih =>
    obtain ⟨hne, hchars⟩ := h w (List.mem_cons_self _ _)
    cases ws with
    | nil =>
      show wordsAux [] w = [w]
      have h1 := wordsAux_append_word w hchars [] []
      rw [List.append_nil, List.nil_append] at h1
      rw [h1, wordsAux_nil]
      unfold flushWord
      rw [if_neg (by simpa [List.isEmpty_iff] using hne)]
    | cons w2 ws2 =>
      show wordsAux [] (w ++ '_' :: joinWith '_' (w2 :: ws2)) = w :: w2 :: ws2
      rw [wordsAux_split_delim '_' rfl _ w []]
      have hw : wordsAux [] w = [w] := by
        have h1 := wordsAux_append_word w hchars [] []
        rw [List.append_nil, List.nil_append] at h1
        rw [h1, wordsAux_nil]
        unfold flushWord
        rw [if_neg (by simpa [List.isEmpty_iff] using hne)]
      rw [hw, ih (fun v hv => h v (List.mem_cons_of_mem _ hv))]
      rfl

/-- Concatenation distributes over list append. -/
theorem concatWords_append (a b : List (List Char)) :
    concatWords (a ++ b) = concatWords a ++ concatWords b := by
  induction a with
  | nil => rfl
  | cons w a ih => simp [concatWords, ih]

/-- Concatenating a flushed accumulator returns it. -/
theorem concatWords_flushWord (cur : List Char) : concatWords (flushWord cur) = cur := by
  unfold flushWord
  split_ifs with h
  · simp [List.isEmpty_iff] at h
    simp [concatWords, h]
  · simp [concatWords]

/-- On delimiter-free input, concatenating the split words recovers the
input. -/
theorem concatWords_wordsAux : ∀ (s : List Char), (∀ c ∈ s, isDelim c = false) →
    ∀ cur, concatWords (wordsAux cur s) = cur ++ s := by
  intro s
  induction s with
  | nil =>
    intro _ cur
    rw [wordsAux_nil, concatWords_flushWord, List.append_nil]
  | cons c rest ih =>
    intro h cur
    have hc := h c (List.mem_cons_self _ _)
    rw [wordsAux_cons, if_neg (by simp [hc])]
    by_cases hu : isUpperC c = true
    · rw [if_pos hu, concatWords_append, concatWords_flushWord,
        ih (fun x hx => h x (List.mem_cons_of_mem _ hx)) [c]]
      rfl
    · rw [if_neg hu, ih (fun x hx => h x (List.mem_cons_of_mem _ hx)) (cur ++ [c]),
        ← List.append_cons]

/-- Words of a scan over input whose accumulator is delimiter-free contain
no delimiters. -/
theorem wordsAux_no_delim : ∀ (s cur : List Char), (∀ c ∈ cur, isDelim c = false) →
    ∀ v ∈ wordsAux cur s, ∀ c ∈ v, isDelim c = false := by
  intro s
  induction s with
  | nil =>
    intro cur hcur v hv
    obtain ⟨rfl, -⟩ := mem_flushWord hv
    exact hcur
  | cons c rest ih =>
    intro cur hcur v hv
    rw [wordsAux_cons] at hv
    split_ifs at hv with h1 h2
    · rcases List.mem_append.mp hv with h | h
      · obtain ⟨rfl, -⟩ := mem_flushWord h
        exact hcur
      · exact ih [] (by simp) v h
    · rcases List.mem_append.mp hv with h | h
      · obtain ⟨rfl, -⟩ := mem_flushWord h
        exact hcur
      · exact ih [c] (by simpa using isDelim_of_upper h2) v h
    · refine ih (cur ++ [c]) ?_ v hv
      intro x hx
      rcases List.mem_append.mp hx with h | h
      · exact hcur x h
      · rcases List.mem_singleton.mp h with rfl
        exact Bool.eq_false_iff.mpr h1

/-- On delimiter-free input whose first character is fixed by upper-casing,
every split word is capitalization-fixed. -/
theorem wordsAux_capFixed : ∀ (s : List Char), (∀ c ∈ s, isDelim c = false) →
    ∀ cur, (cur = [] ∨ capFixedWord cur) →
    (cur = [] → ∀ c rest, s = c :: rest → toUpperC c = c) →
    ∀ v ∈ wordsAux cur s, capFixedWord v := by
  intro s
  induction s with
  | nil =>
    intro _ cur hcur _ v hv
    obtain ⟨rfl, hne⟩ := mem_flushWord hv
    rcases hcur with rfl | h
    · exact absurd rfl hne
    · exact h
  | cons c rest ih =>
    intro hnd cur hcur hhead v hv
    have hcnd : isDelim c = false := hnd c (List.mem_cons_self _ _)
    rw [wordsAux_cons, if_neg (by simp [hcnd])] at hv
    by_cases hu : isUpperC c = true
    · rw [if_pos hu] at hv
      rcases List.mem_append.mp hv with h | h
      · obtain ⟨rfl, hne⟩ := mem_flushWord h
        rcases hcur with rfl | hgood
        · exact absurd rfl hne
        · exact hgood
      · refine ih (fun x hx => hnd x (List.mem_cons_of_mem _ hx)) [c]
          (Or.inr ⟨toUpperC_of_upper hu, by simp⟩) (by simp) v h
    · rw [if_neg hu] at hv
      refine ih (fun x hx => hnd x (List.mem_cons_of_mem _ hx)) (cur ++ [c]) (Or.inr ?_)
        (by simp) v hv
      rcases hcur with rfl | hgood
      · have hc := hhead rfl c rest rfl
        exact ⟨hc, by simp⟩
      · cases cur with
        | nil => cases hgood
        | cons d ds =>
          obtain ⟨hd, hds⟩ := hgood
          refine ⟨hd, ?_⟩
          intro x hx
          rcases List.mem_append.mp hx with h | h
          · exact hds x h
          · rcases List.mem_singleton.mp h with rfl
            exact Bool.eq_false_iff.mpr hu

/-- Capitalization fixes a capitalization-fixed word. -/
theorem capWord_of_capFixed {w : List Char} (h : capFixedWord w) : capWord w = w := by
  cases w with
  | nil => cases h
  | cons c cs =>
    obtain ⟨hc, hcs⟩ := h
    simp only [capWord, hc]
    congr 1
    exact (List.map_congr_left fun x hx => toLowerC_of_not_upper (hcs x hx)).trans
      (List.map_id cs)

/-- Membership in a concatenation of words. -/
theorem mem_concatWords {c : Char} : ∀ {l : List (List Char)},
    c ∈ concatWords l → ∃ w ∈ l, c ∈ w := by
  intro l
  induction l with
  | nil => intro h; cases h
  | cons w ws ih =>
    intro h
    rcases List.mem_append.mp h with h | h
    · exact ⟨w, List.mem_cons_self _ _, h⟩
    · obtain ⟨v, hv, hc⟩ := ih h
      exact ⟨v, List.mem_cons_of_mem _ hv, hc⟩

/-- The PascalCase output contains no delimiter characters. -/
theorem fmt_pascal_data_no_delim (s : List Char) :
    ∀ c ∈ concatWords ((wordsAux [] s).map capWord), isDelim c = false := by
  intro c hc
  obtain ⟨w, hw, hcw⟩ := mem_concatWords hc
  obtain ⟨v, hv, rfl⟩ := List.mem_map.mp hw
  have hvnd : ∀ x ∈ v, isDelim x = false := wordsAux_no_delim s [] (by simp) v hv
  cases v with
  | nil => cases hcw
  | cons a vs =>
    simp only [capWord] at hcw
    rcases List.mem_cons.mp hcw with rfl | h
    · exact isDelim_toUpperC (hvnd a (List.mem_cons_self _ _))
    · obtain ⟨x, hx, rfl⟩ := List.mem_map.mp h
      exact isDelim_toLowerC (hvnd x (List.mem_cons_of_mem _ hx))

/-- The PascalCase output's first character is fixed by upper-casing. -/
theorem fmt_pascal_data_headFix (s : List Char) :
    ∀ c rest, concatWords ((wordsAux [] s).map capWord) = c :: rest → toUpperC c = c := by
  intro c rest h
  cases hws : wordsAux [] s with
  | nil =>
    rw [hws] at h
    cases h
  | cons w ws =>
    have hwne : w ≠ [] := wordsAux_ne_nil s [] w (by rw [hws]; exact List.mem_cons_self _ _)
    cases w with
    | nil => exact absurd rfl hwne
    | cons a vs =>
      rw [hws] at h
      simp only [List.map_cons, capWord, concatWords, List.cons_append] at h
      obtain ⟨rfl, -⟩ := List.cons_eq_cons.mp h
      exact toUpperC_idem a

/-- The modelled PascalCase conversion is idempotent. -/
theorem fmt_pascal_idem (s : String) : fmt_pascal (fmt_pascal s) = fmt_pascal s := by
  show fmt_pascal ⟨concatWords ((splitWordsL s.data).map capWord)⟩ = _
  unfold fmt_pascal splitWordsL
  congr 1
  show concatWords ((wordsAux [] (concatWords ((wordsAux [] s.data).map capWord))).map capWord)
    = concatWords ((wordsAux [] s.data).map capWord)
  have hnd := fmt_pascal_data_no_delim s.data
  have hh := fmt_pascal_data_headFix s.data
  have hcap : ∀ v ∈ wordsAux [] (concatWords ((wordsAux [] s.data).map capWord)),
      capFixedWord v :=
    wordsAux_capFixed _ hnd [] (Or.inl rfl) (fun _ => hh)
  have hmap : (wordsAux [] (concatWords ((wordsAux [] s.data).map capWord))).map capWord
      = wordsAux [] (concatWords ((wordsAux [] s.data).map capWord)) :=
    (List.map_congr_left fun v hv => capWord_of_capFixed (hcap v hv)).trans (List.map_id _)
  rw [hmap]
  have := concatWords_wordsAux (concatWords ((wordsAux [] s.data).map capWord)) hnd []
  rw [List.nil_append] at this
  exact this

/-- The modelled snake_case conversion is idempotent. -/
theorem fmt_underscores_idem (s : String) :
    fmt_underscores (fmt_underscores s) = fmt_underscores s := by
  show fmt_underscores ⟨joinWith '_' ((splitWordsL s.data).map lowerWord)⟩ = _
  unfold fmt_underscores
  congr 1
  show joinWith '_'
      ((splitWordsL (joinWith '_' ((splitWordsL s.data).map lowerWord))).map lowerWord)
    = joinWith '_' ((splitWordsL s.data).map lowerWord)
  have hsw : ∀ w ∈ (splitWordsL s.data).map lowerWord, snakeWord w := by
    intro w hw
    obtain ⟨v, hv, rfl⟩ := List.mem_map.mp hw
    refine ⟨?_, ?_⟩
    · have hne := wordsAux_ne_nil s.data [] v hv
      simpa [lowerWord] using hne
    · intro c hc
      obtain ⟨x, hx, rfl⟩ := List.mem_map.mp hc
      exact ⟨isDelim_toLowerC (wordsAux_no_delim s.data [] (by simp) v hv x hx),
        isUpperC_toLowerC x⟩
  rw [splitWordsL_joinWith _ hsw]
  congr 1
  rw [List.map_map]
  refine List.map_congr_left fun v _ => ?_
  show lowerWord (lowerWord v) = lowerWord v
  unfold lowerWord
  rw [List.map_map]
  exact List.map_congr_left fun x _ => toLowerC_idem x

/-! ## Reserved-word suffix facts (finite checks over the concrete list) -/

set_option maxRecDepth 4000 in
/-- Appending `Struct` to a Pascal-fixed reserved word leaves a Pascal-fixed
non-reserved name. -/
theorem reserved_pascal_suffix_Struct :
    ∀ w ∈ RUST_RESERVED_WORDS, fmt_pascal w = w →
      fmt_pascal (w ++ "Struct") = w ++ "Struct" ∧ (w ++ "Struct") ∉ RUST_RESERVED_WORDS := by
  decide

set_option maxRecDepth 4000 in
/-- Appending `Union` to a Pascal-fixed reserved word leaves a Pascal-fixed
non-reserved name. -/
theorem reserved_pascal_suffix_Union :
    ∀ w ∈ RUST_RESERVED_WORDS, fmt_pascal w = w →
      fmt_pascal (w ++ "Union") = w ++ "Union" ∧ (w ++ "Union") ∉ RUST_RESERVED_WORDS := by
  decide

set_option maxRecDepth 4000 in
/-- Appending `Variant` to a Pascal-fixed reserved word leaves a
Pascal-fixed non-reserved name. -/
theorem reserved_pascal_suffix_Variant :
    ∀ w ∈ RUST_RESERVED_WORDS, fmt_pascal w = w →
      fmt_pascal (w ++ "Variant") = w ++ "Variant" ∧ (w ++ "Variant") ∉ RUST_RESERVED_WORDS := by
  decide

set_option maxRecDepth 4000 in
/-- Appending `Alias` to a Pascal-fixed reserved word leaves a Pascal-fixed
non-reserved name. -/
theorem reserved_pascal_suffix_Alias :
    ∀ w ∈ RUST_RESERVED_WORDS, fmt_pascal w = w →
      fmt_pascal (w ++ "Alias") = w ++ "Alias" ∧ (w ++ "Alias") ∉ RUST_RESERVED_WORDS := by
  decide

set_option maxRecDepth 4000 in
/-- Appending `_field` to a snake-fixed reserved word leaves a snake-fixed
non-reserved name. -/
theorem reserved_snake_suffix_field :
    ∀ w ∈ RUST_RESERVED_WORDS, fmt_underscores w = w →
      fmt_underscores (w ++ "_field") = w ++ "_field" ∧
      (w ++ "_field") ∉ RUST_RESERVED_WORDS := by
  decide

set_option maxRecDepth 4000 in
/-- Appending `_route` to a snake-fixed reserved word leaves a snake-fixed
non-reserved name. -/
theorem reserved_snake_suffix_route :
    ∀ w ∈ RUST_RESERVED_WORDS, fmt_underscores w = w →
      fmt_underscores (w ++ "_route") = w ++ "_route" ∧
      (w ++ "_route") ∉ RUST_RESERVED_WORDS := by
  decide

set_option maxRecDepth 4000 in
/-- Appending `_namespace` to a snake-fixed reserved word leaves a
snake-fixed non-reserved name. -/
theorem reserved_snake_suffix_namespace :
    ∀ w ∈ RUST_RESERVED_WORDS, fmt_underscores w = w →
      fmt_underscores (w ++ "_namespace") = w ++ "_namespace" ∧
      (w ++ "_namespace") ∉ RUST_RESERVED_WORDS := by
  decide

set_option maxRecDepth 4000 in
/-- Suffixing `_namespace` always changes the snake_case conversion of a
reserved word. -/
theorem reserved_snake_namespace_ne :
    ∀ w ∈ RUST_RESERVED_WORDS, fmt_underscores (w ++ "_namespace") ≠ w := by
  decide

/-- Idempotence of a suffix-on-collision naming function, given an
idempotent case converter and the finite reserved-word facts for its
suffix. -/
theorem nameFn_idem (conv : String → String) (sfx : String) (f : String → String)
    (hf : ∀ t, f t = if conv t ∈ RUST_RESERVED_WORDS then conv t ++ sfx else conv t)
    (hconv : ∀ s, conv (conv s) = conv s)
    (hres : ∀ w ∈ RUST_RESERVED_WORDS, conv w = w →
      conv (w ++ sfx) = w ++ sfx ∧ (w ++ sfx) ∉ RUST_RESERVED_WORDS)
    (s : String) : f (f s) = f s := by
  by_cases h : conv s ∈ RUST_RESERVED_WORDS
  · obtain ⟨h1, h2⟩ := hres (conv s) h (hconv s)
    rw [hf s, if_pos h, hf (conv s ++ sfx), h1, if_neg h2]
  · rw [hf s, if_neg h, hf (conv s), hconv s, if_neg h]

/-- Claim C8: for every input string and every naming category, the naming
function is total and deterministic (it is a function); when the
case-converted name collides with the fixed reserved-word set, the
category-specific suffix is appended exactly once and the resulting
identifier is not itself reserved; and applying the same naming function to
its own output returns it unchanged. -/
theorem c8_naming_idempotent_collision_safe (cat : NameCategory) (s : String) :
    (caseConv cat s ∈ RUST_RESERVED_WORDS →
      name_for cat s = caseConv cat s ++ suffixOf cat ∧
      name_for cat s ∉ RUST_RESERVED_WORDS) ∧
    name_for cat (name_for cat s) = name_for cat s := by
  cases cat
  case structC =>
    refine ⟨fun h => ?_, ?_⟩
    · have h' : fmt_pascal s ∈ RUST_RESERVED_WORDS := h
      refine ⟨by simp only [name_for, struct_name, caseConv, suffixOf, if_pos h'], ?_⟩
      have := (reserved_pascal_suffix_Struct (fmt_pascal s) h' (fmt_pascal_idem s)).2
      simpa [name_for, struct_name, if_pos h'] using this
    · exact nameFn_idem fmt_pascal "Struct" struct_name (fun t => rfl) fmt_pascal_idem
        reserved_pascal_suffix_Struct s
  case unionC =>
    refine ⟨fun h => ?_, ?_⟩
    · have h' : fmt_pascal s ∈ RUST_RESERVED_WORDS := h
      refine ⟨by simp only [name_for, enum_name, caseConv, suffixOf, if_pos h'], ?_⟩
      have := (reserved_pascal_suffix_Union (fmt_pascal s) h' (fmt_pascal_idem s)).2
      simpa [name_for, enum_name, if_pos h'] using this
    · exact nameFn_idem fmt_pascal "Union" enum_name (fun t => rfl) fmt_pascal_idem
        reserved_pascal_suffix_Union s
  case variantC =>
    refine ⟨fun h => ?_, ?_⟩
    · have h' : fmt_pascal s ∈ RUST_RESERVED_WORDS := h
      refine ⟨by simp only [name_for, enum_variant_name, caseConv, suffixOf, if_pos h'], ?_⟩
      have := (reserved_pascal_suffix_Variant (fmt_pascal s) h' (fmt_pascal_idem s)).2
      simpa [name_for, enum_variant_name, if_pos h'] using this
    · exact nameFn_idem fmt_pascal "Variant" enum_variant_name (fun t => rfl) fmt_pascal_idem
        reserved_pascal_suffix_Variant s
  case aliasC =>
    refine ⟨fun h => ?_, ?_⟩
    · have h' : fmt_pascal s ∈ RUST_RESERVED_WORDS := h
      refine ⟨by simp only [name_for, alias_name, caseConv, suffixOf, if_pos h'], ?_⟩
      have := (reserved_pascal_suffix_Alias (fmt_pascal s) h' (fmt_pascal_idem s)).2
      simpa [name_for, alias_name, if_pos h'] using this
    · exact nameFn_idem fmt_pascal "Alias" alias_name (fun t => rfl) fmt_pascal_idem
        reserved_pascal_suffix_Alias s
  case fieldC =>
    refine ⟨fun h => ?_, ?_⟩
    · have h' : fmt_underscores s ∈ RUST_RESERVED_WORDS := h
      refine ⟨by simp only [name_for, field_name, caseConv, suffixOf, if_pos h'], ?_⟩
      have := (reserved_snake_suffix_field (fmt_underscores s) h' (fmt_underscores_idem s)).2
      simpa [name_for, field_name, if_pos h'] using this
    · exact nameFn_idem fmt_underscores "_field" field_name (fun t => rfl)
        fmt_underscores_idem reserved_snake_suffix_field s
  case routeC =>
    refine ⟨fun h => ?_, ?_⟩
    · have h' : fmt_underscores s ∈ RUST_RESERVED_WORDS := h
      refine ⟨by simp only [name_for, route_name, caseConv, suffixOf, if_pos h'], ?_⟩
      have := (reserved_snake_suffix_route (fmt_underscores s) h' (fmt_underscores_idem s)).2
      simpa [name_for, route_name, if_pos h'] using this
    · exact nameFn_idem fmt_underscores "_route" route_name (fun t => rfl)
        fmt_underscores_idem reserved_snake_suffix_route s
  case namespaceC =>
    refine ⟨fun h => ?_, ?_⟩
    · have h' : fmt_underscores s ∈ RUST_RESERVED_WORDS := h
      refine ⟨by simp only [name_for, namespace_name, caseConv, suffixOf, if_pos h'], ?_⟩
      have := (reserved_snake_suffix_namespace (fmt_underscores s) h' (fmt_underscores_idem s)).2
      simpa [name_for, namespace_name, if_pos h'] using this
    · exact nameFn_idem fmt_underscores "_namespace" namespace_name (fun t => rfl)
        fmt_underscores_idem reserved_snake_suffix_namespace s

/-- Witness for C8: the reserved name `box` gets the `Struct` suffix exactly
once and leaves the reserved set, and the field-naming function is
idempotent at the reserved name `match`. -/
theorem c8_naming_idempotent_collision_safe_witness :
    name_for .structC "box" = caseConv .structC "box" ++ suffixOf .structC ∧
    name_for .structC "box" ∉ RUST_RESERVED_WORDS ∧
    name_for .fieldC (name_for .fieldC "match") = name_for .fieldC "match" :=
  ⟨((c8_naming_idempotent_collision_safe .structC "box").1 (by decide)).1,
   ((c8_naming_idempotent_collision_safe .structC "box").1 (by decide)).2,
   (c8_naming_idempotent_collision_safe .fieldC "match").2⟩

/-- Claim C10 (amended): the per-namespace output file name and every
`pub mod` line of the top-level module index use the raw namespace name
verbatim, one line per namespace in processing order, whereas
cross-namespace type qualification uses the resolver-processed namespace
name with the `_namespace` suffix applied on reserved-word collision; the
two agree exactly when the namespace name is unchanged by underscore
conversion and is not reserved. -/
theorem c10_mod_index_vs_qualifier (api : List SchemaNamespace) (ns : SchemaNamespace)
    (c onm nm sn : String) :
    (generate api).2 = api.map (fun x => "pub mod " ++ x.name ++ ";") ∧
    (emit_namespace ns).fileName = ns.name ++ ".rs" ∧
    (onm ≠ c → (rust_type c (.structT onm sn [] false)).1
        = "super::" ++ namespace_name onm ++ "::" ++ struct_name sn) ∧
    (namespace_name nm = nm ↔ fmt_underscores nm = nm ∧ nm ∉ RUST_RESERVED_WORDS) := by
  refine ⟨rfl, rfl, fun h => by simp [rust_type, h], ?_⟩
  constructor
  · intro hagree
    by_cases h : fmt_underscores nm ∈ RUST_RESERVED_WORDS
    · exfalso
      have heq : nm = fmt_underscores nm ++ "_namespace" := by
        conv_lhs => rw [← hagree]
        simp [namespace_name, h]
      have h2 := congrArg fmt_underscores heq
      exact reserved_snake_namespace_ne (fmt_underscores nm) h h2.symm
    · have hn : namespace_name nm = fmt_underscores nm := by simp [namespace_name, h]
      rw [hn] at hagree
      exact ⟨hagree, fun hmem => h (by rw [hagree]; exact hmem)⟩
  · rintro ⟨h1, h2⟩
    simp [namespace_name, h1, h2]

/-- Witness for C10: a concrete module index line, a concrete cross-
namespace qualification, and the agreement criterion at the reserved name
`box`. -/
theorem c10_mod_index_vs_qualifier_witness :
    (generate [{ name := "files", doc := none, aliases := [], routes := [], types := [] }]).2
      = ["pub mod files;"] ∧
    (rust_type "users" (.structT "files" "Meta" [] false)).1 = "super::files::Meta" ∧
    (namespace_name "box" = "box" ↔
      fmt_underscores "box" = "box" ∧ "box" ∉ RUST_RESERVED_WORDS) := by
  have h := c10_mod_index_vs_qualifier
    [{ name := "files", doc := none, aliases := [], routes := [], types := [] }]
    { name := "files", doc := none, aliases := [], routes := [], types := [] }
    "users" "files" "box" "Meta"
  exact ⟨h.1, h.2.2.1 (by decide), h.2.2.2⟩

/-- Counterexample for C10 as stated: for the namespace name `A` the
underscored name `a` is not reserved, yet the raw name used by the module
index differs from the resolver-processed name used for qualification —
"agree exactly when the underscored name is not reserved" fails. -/
theorem c10_raw_vs_resolved_disagree :
    (generate [{ name := "A", doc := none, aliases := [], routes := [], types := [] }]).2
      = ["pub mod A;"] ∧
    fmt_underscores "A" ∉ RUST_RESERVED_WORDS ∧
    namespace_name "A" = "a" ∧
    namespace_name "A" ≠ "A" := by
  refine ⟨rfl, by decide, by decide, by decide⟩
